import Mathlib

/-!
Verification model of the `mssql-procedure-mapper` repository.

The Python sources are embedded shallowly:

* `src/mapper/sql_parser.py` (`SQLParser`): branch splitting, the two
  table/column extraction strategies (grammar AST walk and regex fallback)
  and the structured-text (hint) serializer.
* `src/mapper/main.py` (`process_mapping`): the batched schema-lookup and
  mapping phase.
* `src/mapper/oracle_mapper.py` (`OracleMapper`): record constructors for
  unmapped / derived results.

Python regular expressions are embedded as explicit character-level
scanners over `List Char` that implement the exact leftmost,
non-overlapping matching (including the relevant backtracking behaviour)
of the concrete patterns appearing in the source.  `\w` and `\s` are
modelled over the ASCII range (the repository's procedure texts are
ASCII), and `re.IGNORECASE` is modelled with `Char.toLower`.

The grammar-based strategy parses with the external `sqlglot` library;
that parser is modelled as an oracle `String → Except String Query` over a
`Query`/`Expr` syntax tree mirroring the `sqlglot` node kinds the code
consumes (`exp.Table`, `exp.Select`, `exp.Where`, `exp.EQ`, `exp.Column`,
`exp.Star`, `exp.Parameter`), while the extraction functions walking that
tree are translated from the source.
-/

namespace SqlMap

/-- Python `\w` over ASCII: letters, digits and underscore. -/
def wordCh (c : Char) : Bool := c.isAlphanum || c = '_'

/-- Python `\s` over ASCII: space, tab, newline, CR, VT, FF. -/
def spaceCh (c : Char) : Bool :=
  c = ' ' || c = '\t' || c = '\n' || c = '\r' || c = Char.ofNat 11 || c = Char.ofNat 12

/-- Case-insensitive character comparison (`re.IGNORECASE`). -/
def lowEq (a b : Char) : Bool := a.toLower = b.toLower

/-- Match a literal pattern case-insensitively at the head of the input.
Returns the actually matched characters (with their original case) and the
remaining input. -/
def ciStarts : List Char → List Char → Option (List Char × List Char)
  | [], cs => some ([], cs)
  | _ :: _, [] => none
  | p :: ps, c :: cs =>
    if lowEq c p then (ciStarts ps cs).map (fun mr => (c :: mr.1, mr.2)) else none

/-- Greedy `\w+`: the maximal nonempty word-character run and the rest. -/
def takeWord (cs : List Char) : Option (List Char × List Char) :=
  let w := cs.takeWhile wordCh
  if w.isEmpty then none else some (w, cs.dropWhile wordCh)

/-- Greedy `\s+`: the maximal nonempty whitespace run and the rest. -/
def skipWs1 (cs : List Char) : Option (List Char × List Char) :=
  let w := cs.takeWhile spaceCh
  if w.isEmpty then none else some (w, cs.dropWhile spaceCh)

/-- Greedy `\s*`: the maximal (possibly empty) whitespace run and the rest. -/
def skipWs0 (cs : List Char) : List Char × List Char :=
  (cs.takeWhile spaceCh, cs.dropWhile spaceCh)

/-- The single-quote character. -/
def quoteCh : Char := Char.ofNat 39

/-- Match `IF\s+(@\w+)\s*=\s*'?(\w+)'?` at the head of the input
(`SQLParser._split_branches`, the part of the guard pattern after the
optional `ELSE`).  Returns `(param, value, consumed, rest)` where
`consumed ++ rest` is the input and `param`/`value` are the two capture
groups. -/
def matchGuardCore (cs : List Char) : Option (List Char × List Char × List Char × List Char) :=
  match ciStarts ['i', 'f'] cs with
  | none => none
  | some (m1, r1) =>
    match skipWs1 r1 with
    | none => none
    | some (w1, r2) =>
      match r2 with
      | '@' :: r3 =>
        match takeWord r3 with
        | none => none
        | some (pw, r4) =>
          match (skipWs0 r4).2 with
          | '=' :: r6 =>
            -- `'?(\w+)'?` with the regex backtracking on the opening quote
            match (match (skipWs0 r6).2 with
                   | q :: r8 => if q = quoteCh then takeWord r8 else none
                   | [] => none : Option (List Char × List Char)) with
            | some (vw, r9) =>
              match r9 with
              | c :: t =>
                if c = quoteCh then
                  some ('@' :: pw, vw,
                    m1 ++ w1 ++ '@' :: pw ++ (skipWs0 r4).1 ++ '=' :: (skipWs0 r6).1 ++
                      quoteCh :: vw ++ [c], t)
                else
                  some ('@' :: pw, vw,
                    m1 ++ w1 ++ '@' :: pw ++ (skipWs0 r4).1 ++ '=' :: (skipWs0 r6).1 ++
                      quoteCh :: vw, r9)
              | [] =>
                some ('@' :: pw, vw,
                  m1 ++ w1 ++ '@' :: pw ++ (skipWs0 r4).1 ++ '=' :: (skipWs0 r6).1 ++
                    quoteCh :: vw, r9)
            | none =>
              match takeWord (skipWs0 r6).2 with
              | none => none
              | some (vw, r9) =>
                match r9 with
                | c :: t =>
                  if c = quoteCh then
                    some ('@' :: pw, vw,
                      m1 ++ w1 ++ '@' :: pw ++ (skipWs0 r4).1 ++ '=' :: (skipWs0 r6).1 ++
                        vw ++ [c], t)
                  else
                    some ('@' :: pw, vw,
                      m1 ++ w1 ++ '@' :: pw ++ (skipWs0 r4).1 ++ '=' :: (skipWs0 r6).1 ++ vw, r9)
                | [] =>
                  some ('@' :: pw, vw,
                    m1 ++ w1 ++ '@' :: pw ++ (skipWs0 r4).1 ++ '=' :: (skipWs0 r6).1 ++ vw, r9)
          | _ => none
      | _ => none

/-- Match the full guard pattern `(?:ELSE\s+)?IF\s+(@\w+)\s*=\s*'?(\w+)'?`
at the head of the input, with the regex engine's backtracking over the
optional `ELSE\s+` group. -/
def matchGuardAt (cs : List Char) : Option (List Char × List Char × List Char × List Char) :=
  match ciStarts ['e', 'l', 's', 'e'] cs with
  | some (m, r1) =>
    match skipWs1 r1 with
    | some (w, r2) =>
      match matchGuardCore r2 with
      | some (p, v, con, rest) => some (p, v, m ++ w ++ con, rest)
      | none => matchGuardCore cs
    | none => matchGuardCore cs
  | none => matchGuardCore cs

/-- Leftmost occurrence of the guard pattern: scans positions left to
right as `re.split` does.  Returns `(pre, param, value, consumed, rest)`
with the input equal to `pre ++ consumed ++ rest` and no match starting
inside `pre`. -/
def findGuard : List Char → Option (List Char × List Char × List Char × List Char × List Char)
  | [] => none
  | c :: cs' =>
    match matchGuardAt (c :: cs') with
    | some (p, v, con, rest) => some ([], p, v, con, rest)
    | none =>
      (findGuard cs').map (fun r => (c :: r.1, r.2.1, r.2.2.1, r.2.2.2.1, r.2.2.2.2))

theorem ciStarts_eq {pat cs m r : List Char} (h : ciStarts pat cs = some (m, r)) :
    cs = m ++ r ∧ m.length = pat.length := by
  induction pat generalizing cs m r with
  | nil =>
    simp only [ciStarts, Option.some.injEq, Prod.mk.injEq] at h
    obtain ⟨h1, h2⟩ := h
    subst h1 h2
    simp
  | cons p ps ih =>
    cases cs with
    | nil => simp [ciStarts] at h
    | cons c cs' =>
      simp only [ciStarts] at h
      split at h
      · cases h3 : ciStarts ps cs' with
        | none => rw [h3] at h; simp at h
        | some mr =>
          obtain ⟨m', r'⟩ := mr
          rw [h3] at h
          simp only [Option.map_some', Option.some.injEq, Prod.mk.injEq] at h
          obtain ⟨hm, hr⟩ := h
          obtain ⟨h1, h2⟩ := ih h3
          subst hm hr
          simp [h1, h2]
      · simp at h

theorem takeWord_eq {cs w r : List Char} (h : takeWord cs = some (w, r)) :
    cs = w ++ r ∧ w ≠ [] := by
  simp only [takeWord] at h
  by_cases he : (cs.takeWhile wordCh).isEmpty
  · simp [he] at h
  · simp [he] at h
    obtain ⟨h1, h2⟩ := h
    subst h1 h2
    refine ⟨(List.takeWhile_append_dropWhile wordCh cs).symm, ?_⟩
    simpa [List.isEmpty_iff] using he

theorem skipWs1_eq {cs w r : List Char} (h : skipWs1 cs = some (w, r)) :
    cs = w ++ r := by
  simp only [skipWs1] at h
  by_cases he : (cs.takeWhile spaceCh).isEmpty
  · simp [he] at h
  · simp [he] at h
    obtain ⟨h1, h2⟩ := h
    subst h1 h2
    exact (List.takeWhile_append_dropWhile spaceCh cs).symm

theorem skipWs0_eq (cs : List Char) : cs = (skipWs0 cs).1 ++ (skipWs0 cs).2 :=
  (List.takeWhile_append_dropWhile spaceCh cs).symm

theorem matchGuardCore_eq {cs p v con rest : List Char}
    (h : matchGuardCore cs = some (p, v, con, rest)) :
    cs = con ++ rest ∧ 2 ≤ con.length := by
  unfold matchGuardCore at h
  split at h
  · simp at h
  next m1 r1 h1 =>
    obtain ⟨hcs1, hlen1⟩ := ciStarts_eq h1
    split at h
    · simp at h
    next w1 r2 h2 =>
      have hcs2 := skipWs1_eq h2
      split at h
      case _ r3 =>
        split at h
        · simp at h
        next pw r4 h3 =>
          obtain ⟨hcs3, _⟩ := takeWord_eq h3
          have hcs4 := skipWs0_eq r4
          split at h
          case _ r6 h5 =>
            have hcs6 := skipWs0_eq r6
            have e4 : r4 = (skipWs0 r4).1 ++ '=' :: r6 := by
              conv_lhs => rw [hcs4, h5]
            split at h
            next vw r9 hq =>
              have hquote : (skipWs0 r6).2 = quoteCh :: vw ++ r9 := by
                cases h72 : (skipWs0 r6).2 with
                | nil => rw [h72] at hq; simp at hq
                | cons q r8 =>
                  rw [h72] at hq
                  by_cases hqc : q = quoteCh
                  · subst hqc
                    simp only [if_pos rfl] at hq
                    obtain ⟨hr8, _⟩ := takeWord_eq hq
                    simp [hr8]
                  · simp [hqc] at hq
              have e6 : r6 = (skipWs0 r6).1 ++ (quoteCh :: vw ++ r9) := by
                conv_lhs => rw [hcs6, hquote]
              have key : cs =
                  (m1 ++ w1 ++ '@' :: pw ++ (skipWs0 r4).1 ++ '=' :: (skipWs0 r6).1 ++
                    quoteCh :: vw) ++ r9 := by
                conv_lhs => rw [hcs1, hcs2, hcs3, e4, e6]
                simp
              split at h
              case _ c9 t9 =>
                split at h <;>
                · simp only [Option.some.injEq, Prod.mk.injEq] at h
                  obtain ⟨hp, hv, hcon, hrest⟩ := h
                  rw [← hcon, ← hrest]
                  refine ⟨?_, by simp [← hcon]; omega⟩
                  simp [key]
              case _ =>
                simp only [Option.some.injEq, Prod.mk.injEq] at h
                obtain ⟨hp, hv, hcon, hrest⟩ := h
                rw [← hcon, ← hrest]
                refine ⟨?_, by simp [← hcon]; omega⟩
                simp [key]
            next hq =>
              split at h
              · simp at h
              next vw r9 h7 =>
                obtain ⟨hcs7, _⟩ := takeWord_eq h7
                have e6 : r6 = (skipWs0 r6).1 ++ (vw ++ r9) := by
                  conv_lhs => rw [hcs6, hcs7]
                have key : cs =
                    (m1 ++ w1 ++ '@' :: pw ++ (skipWs0 r4).1 ++ '=' :: (skipWs0 r6).1 ++
                      vw) ++ r9 := by
                  conv_lhs => rw [hcs1, hcs2, hcs3, e4, e6]
                  simp
                split at h
                case _ c9 t9 =>
                  split at h <;>
                  · simp only [Option.some.injEq, Prod.mk.injEq] at h
                    obtain ⟨hp, hv, hcon, hrest⟩ := h
                    rw [← hcon, ← hrest]
                    refine ⟨?_, by simp [← hcon]; omega⟩
                    simp [key]
                case _ =>
                  simp only [Option.some.injEq, Prod.mk.injEq] at h
                  obtain ⟨hp, hv, hcon, hrest⟩ := h
                  rw [← hcon, ← hrest]
                  refine ⟨?_, by simp [← hcon]; omega⟩
                  simp [key]
          case _ => simp at h
      case _ => simp at h


theorem matchGuardAt_eq {cs p v con rest : List Char}
    (h : matchGuardAt cs = some (p, v, con, rest)) :
    cs = con ++ rest ∧ 2 ≤ con.length := by
  unfold matchGuardAt at h
  split at h
  next m r1 h1 =>
    obtain ⟨hcs1, hlen1⟩ := ciStarts_eq h1
    split at h
    next w r2 h2 =>
      have hcs2 := skipWs1_eq h2
      split at h
      next p' v' con' rest' h3 =>
        simp only [Option.some.injEq, Prod.mk.injEq] at h
        obtain ⟨hp, hv, hcon, hrest⟩ := h
        obtain ⟨hr2, hlen⟩ := matchGuardCore_eq h3
        rw [← hcon, ← hrest]
        refine ⟨?_, by simp [← hcon]; omega⟩
        rw [hcs1, hcs2, hr2]
        simp
      next => exact matchGuardCore_eq h
    next => exact matchGuardCore_eq h
  next => exact matchGuardCore_eq h

theorem findGuard_eq {cs pre p v con rest : List Char}
    (h : findGuard cs = some (pre, p, v, con, rest)) :
    cs = pre ++ con ++ rest ∧ 2 ≤ con.length ∧
      matchGuardAt (con ++ rest) = some (p, v, con, rest) ∧
      ∀ k < pre.length, matchGuardAt (cs.drop k) = none := by
  induction cs generalizing pre with
  | nil => simp [findGuard] at h
  | cons c cs' ih =>
    simp only [findGuard] at h
    cases h1 : matchGuardAt (c :: cs') with
    | some pvcr =>
      obtain ⟨p', v', con', rest'⟩ := pvcr
      rw [h1] at h
      simp only [Option.some.injEq, Prod.mk.injEq] at h
      obtain ⟨hpre, hp, hv, hcon, hrest⟩ := h
      subst hpre hp hv hcon hrest
      obtain ⟨hcs, hlen⟩ := matchGuardAt_eq h1
      refine ⟨by simpa using hcs, hlen, by rw [← hcs]; exact h1, by simp⟩
    | none =>
      rw [h1] at h
      cases h2 : findGuard cs' with
      | none => rw [h2] at h; exact absurd h (by simp)
      | some r =>
        obtain ⟨pre', p', v', con', rest'⟩ := r
        rw [h2] at h
        simp only [Option.map_some', Option.some.injEq, Prod.mk.injEq] at h
        obtain ⟨hpre, hp, hv, hcon, hrest⟩ := h
        subst hp hv hcon hrest
        obtain ⟨hcs, hlen, hmatch, hnone⟩ := ih h2
        subst hpre
        refine ⟨by simp [hcs], hlen, hmatch, ?_⟩
        intro k hk
        cases k with
        | zero => simpa using h1
        | succ k' =>
          simp only [List.drop_succ_cons]
          exact hnone k' (by simpa using hk)

theorem findGuard_rest_lt {cs pre p v con rest : List Char}
    (h : findGuard cs = some (pre, p, v, con, rest)) : rest.length < cs.length := by
  obtain ⟨hcs, hlen, _, _⟩ := findGuard_eq h
  rw [hcs]
  simp
  omega

/-- `re.split` of the guard pattern (`SQLParser._split_branches`): the text
before the first match, and for each match the two capture groups, the
matched text, and the text up to the next match (the branch body). -/
def splitGuards (cs : List Char) :
    List Char × List ((List Char × List Char × List Char) × List Char) :=
  match h : findGuard cs with
  | none => (cs, [])
  | some (pre, p, v, con, rest) =>
    let next := splitGuards rest
    (pre, ((p, v, con), next.1) :: next.2)
termination_by cs.length
decreasing_by exact findGuard_rest_lt h

theorem splitGuards_eq_none {cs : List Char} (h : findGuard cs = none) :
    splitGuards cs = (cs, []) := by
  rw [splitGuards]
  split
  · rfl
  next pre p v con rest h' => rw [h] at h'; exact absurd h' (by simp)

theorem splitGuards_eq_some {cs pre p v con rest : List Char}
    (h : findGuard cs = some (pre, p, v, con, rest)) :
    splitGuards cs = (pre, ((p, v, con), (splitGuards rest).1) :: (splitGuards rest).2) := by
  rw [splitGuards]
  split
  next h' => rw [h] at h'; exact absurd h' (by simp)
  next pre' p' v' con' rest' h' =>
    rw [h] at h'
    simp only [Option.some.injEq, Prod.mk.injEq] at h'
    obtain ⟨h1, h2, h3, h4, h5⟩ := h'
    subst h1 h2 h3 h4 h5
    rfl

/-- Reconstruction: the split is a partition of the input into the text
before the first guard match, then alternating matched guard texts and
branch bodies. -/
theorem splitGuards_reconstruct (cs : List Char) :
    cs = (splitGuards cs).1 ++
      ((splitGuards cs).2.map (fun s => s.1.2.2 ++ s.2)).flatten := by
  cases h : findGuard cs with
  | none => simp [splitGuards_eq_none h]
  | some r =>
    obtain ⟨pre, p, v, con, rest⟩ := r
    obtain ⟨hcs, _, _, _⟩ := findGuard_eq h
    have ih := splitGuards_reconstruct rest
    rw [splitGuards_eq_some h]
    simp only [List.map_cons, List.flatten_cons]
    rw [hcs]
    conv_lhs => rw [ih]
    simp
termination_by cs.length
decreasing_by exact findGuard_rest_lt h

/-- Every recorded guard of the split is an actual match of the guard
pattern, whose capture groups are the recorded parameter and value. -/
theorem splitGuards_matches (cs : List Char) :
    ∀ s ∈ (splitGuards cs).2,
      ∃ rest, matchGuardAt (s.1.2.2 ++ rest) = some (s.1.1, s.1.2.1, s.1.2.2, rest) := by
  cases h : findGuard cs with
  | none => simp [splitGuards_eq_none h]
  | some r =>
    obtain ⟨pre, p, v, con, rest⟩ := r
    obtain ⟨_, _, hmatch, _⟩ := findGuard_eq h
    have ih := splitGuards_matches rest
    rw [splitGuards_eq_some h]
    intro s hs
    simp only [List.mem_cons] at hs
    cases hs with
    | inl he => subst he; exact ⟨rest, hmatch⟩
    | inr hm => exact ih s hm
termination_by cs.length
decreasing_by exact findGuard_rest_lt h

theorem matchGuardAt_nil : matchGuardAt [] = none := rfl

theorem findGuard_ne_none_of_match {cs : List Char} {k : Nat}
    {r : List Char × List Char × List Char × List Char}
    (hm : matchGuardAt (cs.drop k) = some r) : findGuard cs ≠ none := by
  induction cs generalizing k with
  | nil =>
    rw [List.drop_nil, matchGuardAt_nil] at hm
    exact absurd hm (by simp)
  | cons c cs' ih =>
    cases k with
    | zero =>
      simp only [List.drop_zero] at hm
      simp [findGuard, hm]
    | succ k' =>
      simp only [List.drop_succ_cons] at hm
      simp only [findGuard]
      cases hma : matchGuardAt (c :: cs') with
      | some r' => simp
      | none =>
        have hne := ih hm
        cases hfg : findGuard cs' with
        | none => exact absurd hfg hne
        | some r' => simp [hfg]

/-- No guard match starts inside the pre-guard prefix of the split. -/
theorem splitGuards_pre_no_match (cs : List Char) :
    ∀ k < (splitGuards cs).1.length, matchGuardAt (cs.drop k) = none := by
  cases h : findGuard cs with
  | none =>
    rw [splitGuards_eq_none h]
    intro k _
    cases hm : matchGuardAt (cs.drop k) with
    | none => rfl
    | some r => exact absurd h (findGuard_ne_none_of_match hm)
  | some r =>
    obtain ⟨pre, p, v, con, rest⟩ := r
    obtain ⟨_, _, _, hnone⟩ := findGuard_eq h
    rw [splitGuards_eq_some h]
    exact hnone

/-- `SQLParser._split_branches`: split the procedure text on
`(?:ELSE\s+)?IF\s+(@\w+)\s*=\s*'?(\w+)'?`; with no match the whole text is
a single branch with empty condition, otherwise one branch per match, with
condition `f"{param} = '{value}'"` and the inter-match segment as body. -/
def splitBranches (sql : String) : List (String × String) :=
  let segs := (splitGuards sql.data).2
  let branches := segs.map
    (fun s => (String.mk s.1.1 ++ " = '" ++ String.mk s.1.2.1 ++ "'", String.mk s.2))
  if branches.isEmpty then [("", sql)] else branches

/-! ## Data model (`sql_parser.py` dataclasses) -/

/-- `ParsedTable` dataclass. -/
structure ParsedTable where
  name : String
  «alias» : String := ""
  is_temp : Bool := false
  branch : String := ""
deriving DecidableEq, Repr

/-- `ParsedColumn` dataclass. -/
structure ParsedColumn where
  table : String
  column : String
  is_select : Bool := false
  is_where : Bool := false
  parameter : String := ""
  branch : String := ""
deriving DecidableEq, Repr

/-- `ParsedBranch` dataclass. -/
structure ParsedBranch where
  condition : String
  tables : List ParsedTable := []
  select_columns : List ParsedColumn := []
  where_columns : List ParsedColumn := []
deriving DecidableEq, Repr

/-- One entry of `ParseResult.parameters` (the dict built by
`SQLParser._extract_parameters`). -/
structure ProcParam where
  name : String
  type : String
  default : String
deriving DecidableEq, Repr

/-- The shared `self.alias_map` dict (alias → table name), with Python
dict semantics: insertion order is preserved, updates overwrite in
place. -/
abbrev AliasMap := List (String × String)

def amContains (m : AliasMap) (k : String) : Bool := m.any (fun p => p.1 = k)

def amGet (m : AliasMap) (k : String) : Option String :=
  (m.find? (fun p => p.1 = k)).map (·.2)

def amInsert (m : AliasMap) (k v : String) : AliasMap :=
  if amContains m k then m.map (fun p => if p.1 = k then (k, v) else p) else m ++ [(k, v)]

/-- `if table in self.alias_map: table = self.alias_map[table]`. -/
def amResolve (m : AliasMap) (t : String) : String :=
  if amContains m t then (amGet m t).getD t else t

/-- `ParseResult` dataclass. -/
structure ParseResult where
  procedure_name : String := ""
  parameters : List ProcParam := []
  branches : List ParsedBranch := []
  all_tables : List ParsedTable := []
  all_select_columns : List ParsedColumn := []
  all_where_columns : List ParsedColumn := []
  alias_map : AliasMap := []
deriving DecidableEq, Repr

/-! ## The grammar-tree model (`sqlglot` nodes consumed by the code)

`sqlglot.parse_one(select_sql, dialect="tsql")` is external library code;
its result is modelled by the tree below, restricted to the node kinds the
extraction functions inspect.  `Expr.app` stands for any compound
expression (function call, `CASE`, arithmetic); `Expr.param` is
`exp.Parameter` (its name stored with the leading `@`, which is how
`str()` renders it). -/

inductive CmpOp where
  | eq | neq | lt | le | gt | ge
deriving DecidableEq, Repr

inductive LogOp where
  | and | or
deriving DecidableEq, Repr

inductive Expr where
  | column (tbl name : String)
  | star (tbl : String)
  | param (name : String)
  | lit (s : String)
  | app (fn : String) (args : List Expr)
  | cmp (op : CmpOp) (l r : Expr)
  | logic (op : LogOp) (l r : Expr)
  | between (e lo hi : Expr)
  | inPred (e : Expr) (es : List Expr)
  | like (l r : Expr)
deriving Repr

mutual
inductive Source where
  | tbl (db name «alias» : String)
  | sub (q : Query) («alias» : String)
inductive Query where
  | select (exprs : List Expr) (froms : List Source) (whereE : Option Expr)
end

/-- The leading text of `str(expr)` (sqlglot's SQL rendering), as used by
the `str(x).startswith('@')` test in `_extract_where_columns_from_ast`.
Only the head of the rendering is ever inspected, so compound arguments
are rendered schematically. -/
def renderE : Expr → String
  | .column t n => if t = "" then n else t ++ "." ++ n
  | .star t => if t = "" then "*" else t ++ ".*"
  | .param p => p
  | .lit s => s
  | .app f _ => f ++ "(...)"
  | .cmp _ l _ => renderE l ++ " <cmp> ..."
  | .logic _ l _ => renderE l ++ " <logic> ..."
  | .between e _ _ => renderE e ++ " BETWEEN ..."
  | .inPred e _ => renderE e ++ " IN ..."
  | .like l _ => renderE l ++ " LIKE ..."

/-- `isinstance(x, exp.Parameter) or (hasattr(x, 'name') and
str(x).startswith('@'))` (every sqlglot expression has `.name`). -/
def paramLike (e : Expr) : Bool :=
  (match e with | .param _ => true | _ => false) || (renderE e).startsWith "@"

/-- `re.sub(r'^dbo\.', '', name, flags=re.IGNORECASE)`: strip one leading
schema qualifier (the `^` anchor matches only at the start). -/
def stripDbo (s : String) : String :=
  match ciStarts ['d', 'b', 'o', '.'] s.data with
  | some (_, r) => String.mk r
  | none => s

/-- The reserved-keyword blacklist for aliases. -/
def aliasBlacklist : List String :=
  ["WHERE", "WITH", "ON", "AND", "OR", "LEFT", "RIGHT", "INNER", "OUTER", "CROSS"]

mutual
/-- `exp.Table` nodes below a FROM source in document order
(a subquery source is `exp.Subquery`, not `exp.Table`; only the tables
inside it are found). Each entry is `(name, alias)`. -/
def tablesOfSource : Source → List (String × String)
  | .tbl _ name a => [(name, a)]
  | .sub (.select _ froms _) _ => tablesOfSources froms
def tablesOfSources : List Source → List (String × String)
  | [] => []
  | s :: rest => tablesOfSource s ++ tablesOfSources rest
end

/-- `ast.find_all(exp.Table)` in document order. -/
def tablesOfQuery : Query → List (String × String)
  | .select _ froms _ => tablesOfSources froms

mutual
/-- `ast.find_all(exp.Select)` below a FROM source. -/
def selectsOfSource : Source → List Query
  | .tbl _ _ _ => []
  | .sub (.select es froms w) _ => .select es froms w :: selectsOfSources froms
def selectsOfSources : List Source → List Query
  | [] => []
  | s :: rest => selectsOfSource s ++ selectsOfSources rest
end

/-- `ast.find_all(exp.Select)`: the node itself and every nested select. -/
def selectsOfQuery : Query → List Query
  | .select es froms w => .select es froms w :: selectsOfSources froms

/-- `ast.find_all(exp.Where)`: the WHERE expression of every select. -/
def wheresOfQuery (q : Query) : List Expr :=
  (selectsOfQuery q).filterMap (fun s => match s with | .select _ _ w => w)

mutual
/-- `where.find_all(exp.EQ)`: every equality node in the subtree, in
document order. -/
def eqNodes : Expr → List (Expr × Expr)
  | .cmp .eq l r => (l, r) :: (eqNodes l ++ eqNodes r)
  | .cmp .neq l r => eqNodes l ++ eqNodes r
  | .cmp .lt l r => eqNodes l ++ eqNodes r
  | .cmp .le l r => eqNodes l ++ eqNodes r
  | .cmp .gt l r => eqNodes l ++ eqNodes r
  | .cmp .ge l r => eqNodes l ++ eqNodes r
  | .logic _ l r => eqNodes l ++ eqNodes r
  | .between e lo hi => eqNodes e ++ eqNodes lo ++ eqNodes hi
  | .inPred e es => eqNodes e ++ eqNodesList es
  | .like l r => eqNodes l ++ eqNodes r
  | .app _ args => eqNodesList args
  | .column _ _ => []
  | .star _ => []
  | .param _ => []
  | .lit _ => []
def eqNodesList : List Expr → List (Expr × Expr)
  | [] => []
  | e :: es => eqNodes e ++ eqNodesList es
end

mutual
/-- `SQLParser._extract_column_refs`: leaf column references of an
expression.  A plain column or star is emitted (alias-resolved); any other
shape recurses into its sub-expressions (`iter_expressions`; an
`exp.Parameter`'s child is an identifier, never a column).  Note the star
branch of the source omits `is_where`/`parameter`. -/
def extractColumnRefs (am : AliasMap) (e : Expr) (branch : String)
    (is_select is_where : Bool) (parameter : String) : List ParsedColumn :=
  match e with
  | .column t c =>
    [{ table := amResolve am t, column := c, is_select, is_where, parameter, branch }]
  | .star t =>
    [{ table := amResolve am t, column := "*", is_select, branch }]
  | .param _ => []
  | .lit _ => []
  | .app _ args => extractColumnRefsList am args branch is_select is_where parameter
  | .cmp _ l r =>
    extractColumnRefs am l branch is_select is_where parameter ++
      extractColumnRefs am r branch is_select is_where parameter
  | .logic _ l r =>
    extractColumnRefs am l branch is_select is_where parameter ++
      extractColumnRefs am r branch is_select is_where parameter
  | .between e lo hi =>
    extractColumnRefs am e branch is_select is_where parameter ++
      extractColumnRefs am lo branch is_select is_where parameter ++
      extractColumnRefs am hi branch is_select is_where parameter
  | .inPred e es =>
    extractColumnRefs am e branch is_select is_where parameter ++
      extractColumnRefsList am es branch is_select is_where parameter
  | .like l r =>
    extractColumnRefs am l branch is_select is_where parameter ++
      extractColumnRefs am r branch is_select is_where parameter
def extractColumnRefsList (am : AliasMap) (es : List Expr) (branch : String)
    (is_select is_where : Bool) (parameter : String) : List ParsedColumn :=
  match es with
  | [] => []
  | e :: rest =>
    extractColumnRefs am e branch is_select is_where parameter ++
      extractColumnRefsList am rest branch is_select is_where parameter
end

/-- `SQLParser._extract_tables_from_ast`: walk all table nodes, strip the
schema prefix, drop blacklisted aliases, flag temp tables and update the
alias map. -/
def extractTablesFromAst (am : AliasMap) (q : Query) (branch : String) :
    List ParsedTable × AliasMap :=
  (tablesOfQuery q).foldl
    (fun acc na =>
      let name := stripDbo na.1
      let a := if na.2 ≠ "" && aliasBlacklist.contains na.2.toUpper then "" else na.2
      let am' := if a ≠ "" then amInsert acc.2 a name else acc.2
      (acc.1 ++ [{ name := name, «alias» := a, is_temp := name.startsWith "#", branch := branch }],
        am'))
    ([], am)

/-- `SQLParser._extract_select_columns_from_ast`. -/
def extractSelectColumnsFromAst (am : AliasMap) (q : Query) (branch : String) :
    List ParsedColumn :=
  ((selectsOfQuery q).map (fun s =>
    match s with
    | .select es _ _ => (es.map (fun e => extractColumnRefs am e branch true false "")).flatten)).flatten

/-- `SQLParser._extract_where_columns_from_ast`: for every equality node
under a WHERE, if one side is a parameter token the other side's leaf
column references are emitted with that parameter. -/
def extractWhereColumnsFromAst (am : AliasMap) (q : Query) (branch : String) :
    List ParsedColumn :=
  ((wheresOfQuery q).map (fun w =>
    ((eqNodes w).map (fun lr =>
      let pc : Option (String × Expr) :=
        if paramLike lr.2 then some (renderE lr.2, lr.1)
        else if paramLike lr.1 then some (renderE lr.1, lr.2)
        else none
      match pc with
      | some (p, ce) => if p ≠ "" then extractColumnRefs am ce branch false true p else []
      | none => [])).flatten)).flatten

/-- Whether an expression is a plain column reference (`exp.Column`). -/
def isColumnExpr : Expr → Bool
  | .column _ _ => true
  | _ => false

/-- A query whose WHERE clause is `ISNULL(A.Code, x) = @P`: the equality's
non-parameter side is a function application, not a column reference. -/
def qC6 : Query :=
  .select [] [.tbl "" "T" ""]
    (some (.cmp .eq (.app "ISNULL" [.column "A" "Code", .lit "x"]) (.param "@P")))

/-- A query whose WHERE clause is the inequality `A < @P`: no equality
node at all. -/
def qC6b : Query :=
  .select [] [.tbl "" "T" ""]
    (some (.cmp .lt (.column "" "A") (.param "@P")))

/-! ## Regex fallback strategy (`_extract_tables_regex`, `_extract_select_columns_regex`) -/

/-- The `(?:FROM|JOIN)` alternation: `FROM` tried first. -/
def matchKw (cs : List Char) : Option (List Char) :=
  match ciStarts ['f', 'r', 'o', 'm'] cs with
  | some (_, r) => some r
  | none => (ciStarts ['j', 'o', 'i', 'n'] cs).map (·.2)

theorem matchKw_rest_lt {cs r : List Char} (h : matchKw cs = some r) :
    r.length < cs.length := by
  unfold matchKw at h
  split at h
  next m r0 h1 =>
    simp only [Option.some.injEq] at h
    subst h
    obtain ⟨he, hl⟩ := ciStarts_eq h1
    rw [he]
    simp at hl
    simp [hl]
  next h1 =>
    cases h2 : ciStarts ['j', 'o', 'i', 'n'] cs with
    | none => rw [h2] at h; simp at h
    | some mr =>
      rw [h2] at h
      simp only [Option.map_some', Option.some.injEq] at h
      subst h
      obtain ⟨he, hl⟩ := ciStarts_eq h2
      rw [he]
      simp at hl
      simp [hl]

/-- `\[?`: an optional opening bracket. -/
def dropOpen : List Char → List Char
  | '[' :: t => t
  | r => r

/-- `\]?`: an optional closing bracket. -/
def dropClose : List Char → List Char
  | ']' :: t => t
  | r => r

/-- `(#?\w+)`: the table-name capture group; leads with `#` for temp
tables. -/
def takeHashWord (r : List Char) : Option (List Char × List Char) :=
  match r with
  | '#' :: t => (takeWord t).map (fun wr => ('#' :: wr.1, wr.2))
  | _ => takeWord r

/-- `([A-Za-z]\w*)`: the alias capture group. -/
def tryAlias : List Char → Option (List Char × List Char)
  | [] => none
  | c :: t => if c.isAlpha then some (c :: t.takeWhile wordCh, t.dropWhile wordCh) else none

/-- The optional alias group `(?:\s+(?:AS\s+)?([A-Za-z]\w*))?`, with the
regex backtracking over `(?:AS\s+)?`. -/
def matchAliasOpt (r6 : List Char) : Option (List Char × List Char) :=
  match skipWs1 r6 with
  | none => none
  | some (_, r7) =>
    match ciStarts ['a', 's'] r7 with
    | some (_, r8) =>
      match skipWs1 r8 with
      | some (_, r9) =>
        match tryAlias r9 with
        | some a => some a
        | none => tryAlias r7
      | none => tryAlias r7
    | none => tryAlias r7

/-- Match `(?:FROM|JOIN)\s+\[?(#?\w+)\]?(?:\s+(?:AS\s+)?([A-Za-z]\w*))?`
at the head of the input.  Returns `(name, alias, rest)`; `alias = []`
when the optional alias group does not participate. -/
def matchTableAt (cs : List Char) : Option (List Char × List Char × List Char) :=
  match matchKw cs with
  | none => none
  | some r1 =>
    match skipWs1 r1 with
    | none => none
    | some (_, r2) =>
      match takeHashWord (dropOpen r2) with
      | none => none
      | some (name, r5) =>
        match matchAliasOpt (dropClose r5) with
        | some (al, r7) => some (name, al, r7)
        | none => some (name, [], dropClose r5)

theorem takeWhile_dropWhile_length_le (p : α → Bool) (l : List α) :
    (l.dropWhile p).length ≤ l.length := by
  conv_rhs => rw [← List.takeWhile_append_dropWhile p l]
  simp only [List.length_append]
  omega

theorem skipWs1_rest_lt {cs w r : List Char} (h : skipWs1 cs = some (w, r)) :
    r.length < cs.length := by
  simp only [skipWs1] at h
  by_cases he : (cs.takeWhile spaceCh).isEmpty
  · simp [he] at h
  · simp [he] at h
    obtain ⟨h1, h2⟩ := h
    subst h1 h2
    conv_rhs => rw [← List.takeWhile_append_dropWhile spaceCh cs]
    simp only [List.length_append]
    have : (cs.takeWhile spaceCh).length ≠ 0 := by
      simpa [List.isEmpty_iff, List.length_eq_zero] using he
    omega

theorem takeWord_rest_lt {cs w r : List Char} (h : takeWord cs = some (w, r)) :
    r.length < cs.length := by
  obtain ⟨h1, h2⟩ := takeWord_eq h
  rw [h1]
  simp only [List.length_append]
  have : w.length ≠ 0 := by simpa [List.length_eq_zero] using h2
  omega

theorem dropOpen_length_le (r : List Char) : (dropOpen r).length ≤ r.length := by
  unfold dropOpen
  split <;> simp

theorem dropClose_length_le (r : List Char) : (dropClose r).length ≤ r.length := by
  unfold dropClose
  split <;> simp

theorem takeHashWord_rest_lt {cs n r : List Char} (h : takeHashWord cs = some (n, r)) :
    r.length < cs.length := by
  unfold takeHashWord at h
  split at h
  next t =>
    cases h1 : takeWord t with
    | none => rw [h1] at h; simp at h
    | some wr =>
      rw [h1] at h
      simp only [Option.map_some', Option.some.injEq, Prod.mk.injEq] at h
      obtain ⟨_, h2⟩ := h
      subst h2
      have := takeWord_rest_lt h1
      simp
      omega
  next => exact takeWord_rest_lt h

theorem tryAlias_rest_lt {cs al r : List Char} (h : tryAlias cs = some (al, r)) :
    r.length < cs.length := by
  unfold tryAlias at h
  split at h
  · simp at h
  next c t =>
    by_cases hc : c.isAlpha
    · simp only [hc, if_pos] at h
      simp only [Option.some.injEq, Prod.mk.injEq] at h
      obtain ⟨_, h2⟩ := h
      subst h2
      have := takeWhile_dropWhile_length_le wordCh t
      simp
      omega
    · simp [hc] at h

theorem matchAliasOpt_rest_lt {cs al r : List Char} (h : matchAliasOpt cs = some (al, r)) :
    r.length < cs.length := by
  unfold matchAliasOpt at h
  split at h
  · simp at h
  next w r7 h7 =>
    have hr7 : r7.length < cs.length := skipWs1_rest_lt h7
    have htry : ∀ {al' r'}, tryAlias r7 = some (al', r') → r'.length < cs.length := by
      intro al' r' ht
      exact Nat.lt_trans (tryAlias_rest_lt ht) hr7
    split at h
    next m r8 h8 =>
      obtain ⟨he8, _⟩ := ciStarts_eq h8
      have hr8 : r8.length ≤ r7.length := by rw [he8]; simp
      split at h
      next w9 r9 h9 =>
        have hr9 : r9.length < cs.length := by
          have := skipWs1_rest_lt h9
          omega
        split at h
        next a9 ha9 =>
          rcases a9 with ⟨al9, r9'⟩
          simp only [Option.some.injEq, Prod.mk.injEq] at h
          obtain ⟨h1, h2⟩ := h
          subst h2
          have := tryAlias_rest_lt ha9
          omega
        next => exact htry h
      next => exact htry h
    next => exact htry h

theorem matchTableAt_rest_lt {cs n a rest : List Char}
    (h : matchTableAt cs = some (n, a, rest)) : rest.length < cs.length := by
  unfold matchTableAt at h
  split at h
  · simp at h
  next r1 hkw =>
    have hr1 : r1.length < cs.length := matchKw_rest_lt hkw
    split at h
    · simp at h
    next w r2 h2 =>
      have hr2 : r2.length < r1.length := skipWs1_rest_lt h2
      split at h
      · simp at h
      next nm r5 h5 =>
        have hr5 : r5.length < r2.length :=
          Nat.lt_of_lt_of_le (takeHashWord_rest_lt h5) (dropOpen_length_le r2)
        have hr6 : (dropClose r5).length ≤ r5.length := dropClose_length_le r5
        split at h
        next al r7 h7 =>
          simp only [Option.some.injEq, Prod.mk.injEq] at h
          obtain ⟨_, _, hr⟩ := h
          subst hr
          have := matchAliasOpt_rest_lt h7
          omega
        next =>
          simp only [Option.some.injEq, Prod.mk.injEq] at h
          obtain ⟨_, _, hr⟩ := h
          subst hr
          omega

/-- Leftmost, non-overlapping `re.finditer` of the FROM/JOIN pattern. -/
def scanTables : List Char → List (List Char × List Char)
  | [] => []
  | c :: t =>
    match h : matchTableAt (c :: t) with
    | some (n, a, rest) => (n, a) :: scanTables rest
    | none => scanTables t
termination_by cs => cs.length
decreasing_by
  · exact matchTableAt_rest_lt h
  · simp

/-- `SQLParser._extract_tables_regex`. -/
def extractTablesRegex (am : AliasMap) (sql : String) (branch : String) :
    List ParsedTable × AliasMap :=
  (scanTables sql.data).foldl
    (fun acc na =>
      let name := stripDbo (String.mk na.1)
      let alias0 := String.mk na.2
      let a := if alias0 ≠ "" && aliasBlacklist.contains alias0.toUpper then "" else alias0
      let am' := if a ≠ "" then amInsert acc.2 a name else acc.2
      (acc.1 ++ [{ name := name, «alias» := a, is_temp := name.startsWith "#", branch := branch }],
        am'))
    ([], am)

/-- Does the input start with `\s+FROM` (at least one whitespace
character, then—necessarily after the maximal run—`FROM`)? -/
def wsThenFrom (cs : List Char) : Bool :=
  match skipWs1 cs with
  | some (_, r) => (ciStarts ['f', 'r', 'o', 'm'] r).isSome
  | none => false

/-- The lazy group `(.*?)` of `SELECT\s+(.*?)\s+FROM`: the minimal prefix
whose end position satisfies the `\s+FROM` continuation. -/
def findLazyEnd (cs : List Char) : Option (List Char) :=
  if wsThenFrom cs then some [] else
    match cs with
    | [] => none
    | c :: t => (findLazyEnd t).map (c :: ·)

/-- Backtracking over the greedy `\s+` between `SELECT` and the group,
with the whitespace run held in reverse (its head is the run's last
character): the maximal run is tried first; on failure one trailing
whitespace character at a time is given back to the group's search space
(the run must keep at least one character). -/
def selectAttemptsRev (revRun r2 : List Char) : Option (List Char) :=
  match findLazyEnd r2 with
  | some g => some g
  | none =>
    match revRun with
    | c :: d :: rest => selectAttemptsRev (d :: rest) (c :: r2)
    | _ => none

/-- The same backtracking with the run in document order. -/
def selectAttempts (run r2 : List Char) : Option (List Char) :=
  selectAttemptsRev run.reverse r2

/-- Match `SELECT\s+(.*?)\s+FROM` at the head of the input, returning the
capture group. -/
def matchSelectAt (cs : List Char) : Option (List Char) :=
  match ciStarts ['s', 'e', 'l', 'e', 'c', 't'] cs with
  | none => none
  | some (_, r1) =>
    match skipWs1 r1 with
    | none => none
    | some (w1, r2) => selectAttempts w1 r2

/-- `re.search` of `SELECT\s+(.*?)\s+FROM` (`re.DOTALL`): the match at the
leftmost feasible start position. -/
def findSelectClause : List Char → Option (List Char)
  | [] => none
  | c :: t =>
    match matchSelectAt (c :: t) with
    | some g => some g
    | none => findSelectClause t

/-- Match `(\w+)\.(\w+|\*)` at the head of the input. -/
def matchPairAt (cs : List Char) : Option (List Char × List Char × List Char) :=
  match takeWord cs with
  | none => none
  | some (t, r1) =>
    match r1 with
    | c1 :: r2 =>
      if c1 = '.' then
        match takeWord r2 with
        | some (c, r3) => some (t, c, r3)
        | none =>
          match r2 with
          | c2 :: r3 => if c2 = '*' then some (t, ['*'], r3) else none
          | [] => none
      else none
    | [] => none

theorem matchPairAt_rest_lt {cs t c rest : List Char}
    (h : matchPairAt cs = some (t, c, rest)) : rest.length < cs.length := by
  unfold matchPairAt at h
  split at h
  · simp at h
  next tw r1 h1 =>
    obtain ⟨he1, hne1⟩ := takeWord_eq h1
    split at h
    next c1 r2 =>
      split at h
      next hdot =>
        split at h
        next cw r3 h3 =>
          simp only [Option.some.injEq, Prod.mk.injEq] at h
          obtain ⟨_, _, hr⟩ := h
          subst hr
          have := takeWord_rest_lt h3
          rw [he1]
          simp
          omega
        next h3 =>
          split at h
          next c2 r3 =>
            split at h
            next hstar =>
              simp only [Option.some.injEq, Prod.mk.injEq] at h
              obtain ⟨_, _, hr⟩ := h
              subst hr
              rw [he1]
              simp
              omega
            next => simp at h
          next => simp at h
      next => simp at h
    next => simp at h

/-- Leftmost, non-overlapping `re.finditer` of `(\w+)\.(\w+|\*)`. -/
def scanPairs : List Char → List (List Char × List Char)
  | [] => []
  | c :: t =>
    match h : matchPairAt (c :: t) with
    | some (tb, cl, rest) => (tb, cl) :: scanPairs rest
    | none => scanPairs t
termination_by cs => cs.length
decreasing_by
  · exact matchPairAt_rest_lt h
  · simp

/-- `SQLParser._extract_select_columns_regex`. -/
def extractSelectColumnsRegex (am : AliasMap) (sql : String) (branch : String) :
    List ParsedColumn :=
  match findSelectClause sql.data with
  | none => []
  | some clause =>
    (scanPairs clause).map (fun tc =>
      { table := amResolve am (String.mk tc.1), column := String.mk tc.2,
        is_select := true, branch := branch })

/-! ## `_preprocess_sql`: `re.sub(r'\s+with\s*\([^)]+\)', '', sql, flags=re.IGNORECASE)` -/

/-- Match one table-hint occurrence `\s+with\s*\([^)]+\)` at the head. -/
def matchHintAt (cs : List Char) : Option (List Char) :=
  match skipWs1 cs with
  | none => none
  | some (_, r1) =>
    match ciStarts ['w', 'i', 't', 'h'] r1 with
    | none => none
    | some (_, r2) =>
      match (skipWs0 r2).2 with
      | '(' :: r4 =>
        if (r4.takeWhile (· ≠ ')')).isEmpty then none
        else
          match r4.dropWhile (· ≠ ')') with
          | ')' :: r5 => some r5
          | _ => none
      | _ => none

theorem matchHintAt_rest_lt {cs r : List Char} (h : matchHintAt cs = some r) :
    r.length < cs.length := by
  unfold matchHintAt at h
  split at h
  · simp at h
  next w r1 h1 =>
    have hr1 : r1.length < cs.length := skipWs1_rest_lt h1
    split at h
    · simp at h
    next m r2 h2 =>
      obtain ⟨he2, _⟩ := ciStarts_eq h2
      have hr2 : r2.length ≤ r1.length := by rw [he2]; simp
      have hr3 : (skipWs0 r2).2.length ≤ r2.length := by
        unfold skipWs0
        exact takeWhile_dropWhile_length_le spaceCh r2
      split at h
      next r4 h4 =>
        split at h
        · simp at h
        split at h
        next r5 h5 =>
          simp only [Option.some.injEq] at h
          subst h
          have hr4 : r4.length < (skipWs0 r2).2.length := by rw [h4]; simp
          have hr5 : r5.length < r4.length := by
            have hd := takeWhile_dropWhile_length_le (fun c => decide (c ≠ ')')) r4
            rw [h5] at hd
            simp at hd
            omega
          omega
        next => simp at h
      next => simp at h

/-- `SQLParser._preprocess_sql`: delete every table-hint occurrence. -/
def scanRemoveHints : List Char → List Char
  | [] => []
  | c :: t =>
    match h : matchHintAt (c :: t) with
    | some rest => scanRemoveHints rest
    | none => c :: scanRemoveHints t
termination_by cs => cs.length
decreasing_by
  · exact matchHintAt_rest_lt h
  · simp

def preprocessSql (sql : String) : String := String.mk (scanRemoveHints sql.data)

/-! ## `_extract_select_statements`: finditer of
`\bSELECT\b.*?(?=\bSELECT\b|\bINSERT\b|\bUPDATE\b|\bDELETE\b|\bIF\b|\bELSE\b|\bEND\b|$)`
(`re.IGNORECASE | re.DOTALL`) -/

def stmtKws : List (List Char) :=
  [['s','e','l','e','c','t'], ['i','n','s','e','r','t'], ['u','p','d','a','t','e'],
   ['d','e','l','e','t','e'], ['i','f'], ['e','l','s','e'], ['e','n','d']]

/-- `\bKW\b` at the head of `cs`, where `prev` is the character before
`cs` (none at the start of the text). -/
def kwBoundaryAt (prev : Option Char) (cs : List Char) (kw : List Char) : Bool :=
  (match prev with | some c => !wordCh c | none => true) &&
  (match ciStarts kw cs with
   | some (_, r) => match r with | [] => true | c :: _ => !wordCh c
   | none => false)

def anyKwAt (prev : Option Char) (cs : List Char) : Bool :=
  stmtKws.any (kwBoundaryAt prev cs)

/-- The lazy `.*?(?=…)` part: consume until a keyword boundary or the end
of the text.  Returns `(consumed, rest, char before rest)`. -/
def grabStmt (accRev : List Char) (prev : Char) (cs : List Char) :
    List Char × List Char × Char :=
  if anyKwAt (some prev) cs then (accRev.reverse, cs, prev)
  else
    match cs with
    | [] => (accRev.reverse, [], prev)
    | c :: t => grabStmt (c :: accRev) c t

theorem grabStmt_rest_le (accRev : List Char) (prev : Char) (cs : List Char) :
    (grabStmt accRev prev cs).2.1.length ≤ cs.length := by
  induction cs generalizing accRev prev with
  | nil =>
    unfold grabStmt
    split <;> simp
  | cons c t ih =>
    unfold grabStmt
    split
    · simp
    · exact Nat.le_trans (ih (c :: accRev) c) (by simp)

/-- The top-level finditer scan; `prev` tracks the previous character for
the `\b` tests. -/
def scanStmts (prev : Option Char) (cs : List Char) : List (List Char) :=
  match cs with
  | [] => []
  | c :: t =>
    if h : kwBoundaryAt prev (c :: t) ['s','e','l','e','c','t'] then
      match h6 : ciStarts ['s','e','l','e','c','t'] (c :: t) with
      | some (m, r) =>
        (m ++ (grabStmt [] 't' r).1) ::
          scanStmts (some (grabStmt [] 't' r).2.2) (grabStmt [] 't' r).2.1
      | none => scanStmts (some c) t
    else scanStmts (some c) t
termination_by cs.length
decreasing_by
  · obtain ⟨he, hl⟩ := ciStarts_eq h6
    have hg := grabStmt_rest_le [] 't' r
    have hlen := congrArg List.length he
    simp at hlen hl
    simp only [List.length_cons]
    omega
  · simp
  · simp

/-- Python `str.strip()`. -/
def stripStr (cs : List Char) : List Char :=
  ((cs.dropWhile spaceCh).reverse.dropWhile spaceCh).reverse

/-- `SQLParser._extract_select_statements`. -/
def extractSelectStatements (sql : String) : List String :=
  let stmts := (scanStmts none sql.data).map (fun s => String.mk (stripStr s))
  let stmts := stmts.filter (· ≠ "")
  if stmts.isEmpty then [sql] else stmts

/-! ## `_extract_proc_name`:
`re.search(r'CREATE\s+PROC(?:EDURE)?\s+\[?(\w+)\]?\.\[?(\w+)\]?', sql, re.IGNORECASE)` -/

def matchProcNameAt (cs : List Char) : Option String :=
  match ciStarts ['c', 'r', 'e', 'a', 't', 'e'] cs with
  | none => none
  | some (_, r1) =>
    match skipWs1 r1 with
    | none => none
    | some (_, r2) =>
      match ciStarts ['p', 'r', 'o', 'c'] r2 with
      | none => none
      | some (_, r3) =>
        -- `(?:EDURE)?\s+` with backtracking: if `EDURE` matches, `\s+` must
        -- follow it (giving the group back cannot help, since `E` is not
        -- whitespace)
        let r4 : Option (List Char) :=
          match ciStarts ['e', 'd', 'u', 'r', 'e'] r3 with
          | some (_, r') => (skipWs1 r').map (·.2)
          | none => (skipWs1 r3).map (·.2)
        match r4 with
        | none => none
        | some r5 =>
          let r6 := dropOpen r5
          match takeWord r6 with
          | none => none
          | some (_, r7) =>
            match (match r7 with | ']' :: t => t | _ => r7) with
            | '.' :: r8 =>
              let r9 := dropOpen r8
              (takeWord r9).map (fun wr => String.mk wr.1)
            | _ => none

def findProcName : List Char → Option String
  | [] => none
  | c :: t =>
    match matchProcNameAt (c :: t) with
    | some g => some g
    | none => findProcName t

/-- `SQLParser._extract_proc_name`: the second capture group of the first
match, or `""`. -/
def extractProcName (sql : String) : String :=
  (findProcName sql.data).getD ""

/-! ## `_extract_parameters` -/

/-- The lookahead `(?=\s*,|\s*\)|$)` (`$` also matches before a final
newline). -/
def defaultLookahead (cs : List Char) : Bool :=
  (match cs.dropWhile spaceCh with
   | ',' :: _ => true
   | ')' :: _ => true
   | _ => false) || cs = [] || cs = ['\n']

/-- A character of the default-value class `[^\s,\)]`. -/
def defaultCh (c : Char) : Bool := !(spaceCh c || c = ',' || c = ')')

/-- Greedy `[^\s,\)]+` backing off until the lookahead holds. -/
def shrinkDefault (run rest : List Char) : Option (List Char × List Char) :=
  if h : run.isEmpty then none
  else if defaultLookahead rest then some (run, rest)
  else shrinkDefault run.dropLast
    (run.getLast (by simpa [List.isEmpty_iff] using h) :: rest)
termination_by run.length
decreasing_by
  simp [List.length_dropLast]
  have : run ≠ [] := by simpa [List.isEmpty_iff] using h
  have : run.length ≠ 0 := by simpa [List.length_eq_zero] using this
  omega

/-- The optional default group `(?:\s*=\s*([^\s,\)]+))?` followed by the
lookahead; returns `(default, rest)` when the group participates. -/
def tryDefault (cs : List Char) : Option (List Char × List Char) :=
  match (skipWs0 cs).2 with
  | '=' :: r2 =>
    if ((skipWs0 r2).2.takeWhile defaultCh).isEmpty then none
    else shrinkDefault ((skipWs0 r2).2.takeWhile defaultCh) ((skipWs0 r2).2.dropWhile defaultCh)
  | _ => none

/-- A character of the type class `[\w\(\),\s]`. -/
def typeCh (c : Char) : Bool := wordCh c || c = '(' || c = ')' || c = ',' || spaceCh c

/-- The lazy type group `([\w\(\),\s]+?)` followed by the optional default
group and the lookahead: the minimal nonempty type for which the rest of
the pattern matches.  Returns `(type, default?, rest-after-match)`. -/
def typeSearch (accRev : List Char) (cs : List Char) :
    Option (List Char × Option (List Char) × List Char) :=
  match haveDone : (if accRev.isEmpty then none else
      match tryDefault cs with
      | some (d, rest) => some (accRev.reverse, some d, rest)
      | none => if defaultLookahead cs then some (accRev.reverse, none, cs) else none) with
  | some res => some res
  | none =>
    match cs with
    | c :: t => if typeCh c then typeSearch (c :: accRev) t else none
    | [] => none

/-- Backtracking over the greedy `\s+` between the parameter name and the
type (the type class includes whitespace, so given-back characters join
the type's search space). -/
def wsBack (run r : List Char) : Option (List Char × Option (List Char) × List Char) :=
  match typeSearch [] r with
  | some res => some res
  | none =>
    if h : 2 ≤ run.length then
      wsBack run.dropLast (run.getLast (by intro he; rw [he] at h; simp at h) :: r)
    else none
termination_by run.length
decreasing_by simp [List.length_dropLast]; omega

/-- Match `@(\w+)\s+([\w\(\),\s]+?)(?:\s*=\s*([^\s,\)]+))?(?=\s*,|\s*\)|$)`
at the head.  Returns `(name, type, default?, rest)`. -/
def paramMatchAt (cs : List Char) :
    Option (List Char × List Char × Option (List Char) × List Char) :=
  match cs with
  | '@' :: r1 =>
    match takeWord r1 with
    | some (nm, r2) =>
      match skipWs1 r2 with
      | some (w, r3) =>
        (wsBack w r3).map (fun tdr => (nm, tdr.1, tdr.2.1, tdr.2.2))
      | none => none
    | none => none
  | _ => none

theorem shrinkDefault_rest_le (run rest : List Char) {d r : List Char}
    (h : shrinkDefault run rest = some (d, r)) : r.length ≤ run.length + rest.length := by
  induction run using List.reverseRecOn generalizing rest with
  | nil => unfold shrinkDefault at h; simp at h
  | append_singleton run' c ih =>
    unfold shrinkDefault at h
    split at h
    · simp at h
    split at h
    · simp only [Option.some.injEq, Prod.mk.injEq] at h
      obtain ⟨_, h2⟩ := h
      subst h2
      simp
    · simp only [List.dropLast_concat, List.getLast_append] at h
      have := ih (c :: rest) h
      simp at *
      omega

theorem tryDefault_rest_le (cs : List Char) {d r : List Char}
    (h : tryDefault cs = some (d, r)) : r.length ≤ cs.length := by
  unfold tryDefault at h
  split at h
  next r2 h2 =>
    have hr2 : r2.length < cs.length := by
      have hd := takeWhile_dropWhile_length_le spaceCh cs
      have : (skipWs0 cs).2 = cs.dropWhile spaceCh := rfl
      rw [this] at h2
      have h2l := congrArg List.length h2
      simp at h2l
      omega
    split at h
    · simp at h
    · have hs := shrinkDefault_rest_le _ _ h
      have hsplit := congrArg List.length
        (List.takeWhile_append_dropWhile defaultCh (skipWs0 r2).2)
      rw [List.length_append] at hsplit
      have : (skipWs0 r2).2.length ≤ r2.length := takeWhile_dropWhile_length_le spaceCh r2
      omega
  next => simp at h

theorem typeSearch_rest_le {accRev cs t : List Char} {d : Option (List Char)} {r : List Char}
    (h : typeSearch accRev cs = some (t, d, r)) : r.length ≤ cs.length := by
  induction cs generalizing accRev with
  | nil =>
    unfold typeSearch at h
    split at h
    next res hres =>
      simp only [Option.some.injEq] at h
      subst h
      split at hres
      · simp at hres
      · split at hres
        next d' rest' hd =>
          simp only [Option.some.injEq, Prod.mk.injEq] at hres
          obtain ⟨h1, h2, h3⟩ := hres
          subst h3
          exact tryDefault_rest_le _ hd
        next =>
          split at hres
          · simp only [Option.some.injEq, Prod.mk.injEq] at hres
            obtain ⟨h1, h2, h3⟩ := hres
            subst h3
            exact Nat.le_refl _
          · simp at hres
    next hres =>
      simp at h
  | cons c cs' ih =>
    unfold typeSearch at h
    split at h
    next res hres =>
      simp only [Option.some.injEq] at h
      subst h
      split at hres
      · simp at hres
      · split at hres
        next d' rest' hd =>
          simp only [Option.some.injEq, Prod.mk.injEq] at hres
          obtain ⟨h1, h2, h3⟩ := hres
          subst h3
          exact tryDefault_rest_le _ hd
        next =>
          split at hres
          · simp only [Option.some.injEq, Prod.mk.injEq] at hres
            obtain ⟨h1, h2, h3⟩ := hres
            subst h3
            exact Nat.le_refl _
          · simp at hres
    next hres =>
      simp only at h
      split at h
      · have := ih h
        simp only [List.length_cons]
        omega
      · simp at h

theorem wsBack_rest_le (run r : List Char) {t : List Char} {d : Option (List Char)}
    {rest : List Char} (h : wsBack run r = some (t, d, rest)) :
    rest.length ≤ run.length + r.length := by
  induction run using List.reverseRecOn generalizing r with
  | nil =>
    unfold wsBack at h
    split at h
    next res hres =>
      simp only [Option.some.injEq] at h
      subst h
      have := typeSearch_rest_le hres
      omega
    next => simp at h
  | append_singleton run' c ih =>
    unfold wsBack at h
    split at h
    next res hres =>
      simp only [Option.some.injEq] at h
      subst h
      have := typeSearch_rest_le hres
      omega
    next =>
      split at h
      · simp only [List.dropLast_concat, List.getLast_append] at h
        have := ih (c :: r) h
        simp at *
        omega
      · simp at h

theorem paramMatchAt_rest_lt {cs nm ty : List Char} {d : Option (List Char)} {rest : List Char}
    (h : paramMatchAt cs = some (nm, ty, d, rest)) : rest.length < cs.length := by
  unfold paramMatchAt at h
  split at h
  next r1 =>
    split at h
    next nw r2 h2 =>
      obtain ⟨he2, hne2⟩ := takeWord_eq h2
      split at h
      next w r3 h3 =>
        have hr3 : r3.length < r2.length := skipWs1_rest_lt h3
        have he3 := skipWs1_eq h3
        cases hw : wsBack w r3 with
        | none => rw [hw] at h; simp at h
        | some res =>
          rw [hw] at h
          simp only [Option.map_some', Option.some.injEq] at h
          obtain ⟨res1, res2, res3⟩ := res
          simp only [Prod.mk.injEq] at h
          obtain ⟨_, _, _, h4⟩ := h
          subst h4
          have hle := wsBack_rest_le w r3 hw
          have : w.length + r3.length = r2.length := by
            have := congrArg List.length he3
            simp at this
            omega
          have hnm : nw.length ≠ 0 := by simpa [List.length_eq_zero] using hne2
          have : r1.length = nw.length + r2.length := by
            have := congrArg List.length he2
            simpa using this
          simp only [List.length_cons]
          omega
      next => simp at h
    next => simp at h
  next => simp at h

/-- Leftmost, non-overlapping `re.finditer` of the parameter pattern. -/
def scanParams : List Char → List (List Char × List Char × Option (List Char))
  | [] => []
  | c :: t =>
    match h : paramMatchAt (c :: t) with
    | some (nm, ty, dv, rest) => (nm, ty, dv) :: scanParams rest
    | none => scanParams t
termination_by cs => cs.length
decreasing_by
  · exact paramMatchAt_rest_lt h
  · simp

/-- The `\bAS\b` boundary test of the header pattern. -/
def asBoundary (prev : Char) (cs : List Char) : Bool :=
  !wordCh prev &&
  (match ciStarts ['a', 's'] cs with
   | some (_, r) => match r with | [] => true | c :: _ => !wordCh c
   | none => false)

/-- The lazy `.*?` of `(CREATE\s+PROC.*?)\bAS\b` (`re.DOTALL`): consume
until a `\bAS\b` boundary; fail at the end of the text. -/
def grabHeader (prev : Char) (accRev : List Char) (cs : List Char) : Option (List Char) :=
  if asBoundary prev cs then some accRev.reverse
  else
    match cs with
    | [] => none
    | c :: t => grabHeader c (c :: accRev) t

/-- Match `(CREATE\s+PROC.*?)\bAS\b` at the head; returns the capture
group. -/
def matchHeaderAt (cs : List Char) : Option (List Char) :=
  match ciStarts ['c', 'r', 'e', 'a', 't', 'e'] cs with
  | none => none
  | some (m1, r1) =>
    match skipWs1 r1 with
    | none => none
    | some (w, r2) =>
      match ciStarts ['p', 'r', 'o', 'c'] r2 with
      | none => none
      | some (m2, r3) =>
        (grabHeader (m2.getLastD 'c') [] r3).map (fun g => m1 ++ w ++ m2 ++ g)

def findHeader : List Char → Option (List Char)
  | [] => none
  | c :: t =>
    match matchHeaderAt (c :: t) with
    | some g => some g
    | none => findHeader t

/-- `SQLParser._extract_parameters`. -/
def extractParameters (sql : String) : List ProcParam :=
  match findHeader sql.data with
  | none => []
  | some header =>
    (scanParams header).map (fun p =>
      { name := "@" ++ String.mk p.1,
        type := String.mk (stripStr p.2.1),
        default := match p.2.2 with | some dv => String.mk dv | none => "" })

/-! ## `_parse_branch` and `parse`

`sqlglot.parse_one(select_sql, dialect="tsql")` is external library code
and is modelled as an oracle `po : String → Except String Query`
(an `Except.error` is a raised exception).  The `try/except` of
`_parse_branch` catches every exception of the primary strategy and runs
the regex fallback; in the embedding the extractions themselves are total
functions, so the only exception source is the oracle. -/

def parseBranch (po : String → Except String Query) (am : AliasMap)
    (condition sql0 : String) : ParsedBranch × AliasMap :=
  let sql := preprocessSql sql0
  let stmts := extractSelectStatements sql
  stmts.foldl
    (fun acc stmt =>
      match po stmt with
      | .ok ast =>
        let tm := extractTablesFromAst acc.2 ast condition
        let scols := extractSelectColumnsFromAst tm.2 ast condition
        let wcols := extractWhereColumnsFromAst tm.2 ast condition
        ({ acc.1 with
            tables := acc.1.tables ++ tm.1
            select_columns := acc.1.select_columns ++ scols
            where_columns := acc.1.where_columns ++ wcols }, tm.2)
      | .error _ =>
        let tm := extractTablesRegex acc.2 stmt condition
        let scols := extractSelectColumnsRegex tm.2 stmt condition
        ({ acc.1 with
            tables := acc.1.tables ++ tm.1
            select_columns := acc.1.select_columns ++ scols }, tm.2))
    ({ condition := condition }, am)

/-- The per-branch accumulation step of `parse` (step 4 of the source). -/
def parseFoldStep (po : String → Except String Query)
    (acc : ParseResult × AliasMap) (cb : String × String) : ParseResult × AliasMap :=
  let bm := parseBranch po acc.2 cb.1 cb.2
  ({ acc.1 with
      branches := acc.1.branches ++ [bm.1]
      all_tables := acc.1.all_tables ++ bm.1.tables
      all_select_columns := acc.1.all_select_columns ++ bm.1.select_columns
      all_where_columns := acc.1.all_where_columns ++ bm.1.where_columns }, bm.2)

/-- `SQLParser.parse` (one parser instance per call: the alias map starts
empty). -/
def parse (po : String → Except String Query) (sql : String) : ParseResult :=
  let branches := splitBranches sql
  let step := branches.foldl (parseFoldStep po)
    (({ procedure_name := extractProcName sql
        parameters := extractParameters sql } : ParseResult), ([] : AliasMap))
  { step.1 with alias_map := step.2 }

/-- `_parse_branch` with the exception flow explicit: the body of the
`try` is an `Except` computation and the `except` handler runs the
fallback. -/
def parseBranchE (po : String → Except String Query) (am : AliasMap)
    (condition sql0 : String) : Except String (ParsedBranch × AliasMap) :=
  let sql := preprocessSql sql0
  let stmts := extractSelectStatements sql
  stmts.foldlM
    (fun acc stmt =>
      Except.tryCatch
        (do
          let ast ← po stmt
          let tm := extractTablesFromAst acc.2 ast condition
          let scols := extractSelectColumnsFromAst tm.2 ast condition
          let wcols := extractWhereColumnsFromAst tm.2 ast condition
          pure ({ acc.1 with
              tables := acc.1.tables ++ tm.1
              select_columns := acc.1.select_columns ++ scols
              where_columns := acc.1.where_columns ++ wcols }, tm.2))
        (fun _ =>
          let tm := extractTablesRegex acc.2 stmt condition
          let scols := extractSelectColumnsRegex tm.2 stmt condition
          pure ({ acc.1 with
              tables := acc.1.tables ++ tm.1
              select_columns := acc.1.select_columns ++ scols }, tm.2)))
    ({ condition := condition }, am)

/-- `parse` with the exception flow explicit. -/
def parseE (po : String → Except String Query) (sql : String) :
    Except String ParseResult := do
  let branches := splitBranches sql
  let step ← branches.foldlM
    (fun acc cb => do
      let bm ← parseBranchE po acc.2 cb.1 cb.2
      pure ({ acc.1 with
          branches := acc.1.branches ++ [bm.1]
          all_tables := acc.1.all_tables ++ bm.1.tables
          all_select_columns := acc.1.all_select_columns ++ bm.1.select_columns
          all_where_columns := acc.1.all_where_columns ++ bm.1.where_columns }, bm.2))
    (({ procedure_name := extractProcName sql
        parameters := extractParameters sql } : ParseResult), ([] : AliasMap))
  pure { step.1 with alias_map := step.2 }

theorem foldlM_except_ok {α β ε : Type} (l : List α) (f : β → α → β)
    (fe : β → α → Except ε β) (hf : ∀ b a, fe b a = .ok (f b a)) (b : β) :
    l.foldlM fe b = .ok (l.foldl f b) := by
  induction l generalizing b with
  | nil => rfl
  | cons x xs ih =>
    rw [List.foldlM_cons, hf]
    show List.foldlM fe (f b x) xs = _
    exact ih (f b x)

theorem parseBranchE_ok (po : String → Except String Query) (am : AliasMap)
    (condition sql0 : String) :
    parseBranchE po am condition sql0 = .ok (parseBranch po am condition sql0) := by
  unfold parseBranchE parseBranch
  apply foldlM_except_ok
  intro b a
  cases hp : po a <;> simp only [Except.tryCatch, hp] <;> rfl

/-! ## `to_structured_text` (the hint serializer) -/

/-- The `unique_tables` dict of `to_structured_text`: keyed by `t.name`
(exact, case-sensitive string equality), first occurrence wins, insertion
order preserved. -/
def uniqueTables (ts : List ParsedTable) : List ParsedTable :=
  ts.foldl (fun acc t => if acc.any (fun u => u.name = t.name) then acc else acc ++ [t]) []

/-- `f"- {name}{alias_info}{temp_mark}"`. -/
def tableLine (t : ParsedTable) : String :=
  "- " ++ t.name ++ (if t.alias ≠ "" then " (별칭: " ++ t.alias ++ ")" else "") ++
    (if t.is_temp then " [임시테이블]" else "")

/-- `f"- {p['name']}: {p['type']}{default}"`. -/
def paramLine (p : ProcParam) : String :=
  "- " ++ p.name ++ ": " ++ p.type ++ (if p.default ≠ "" then " = " ++ p.default else "")

/-- The per-branch `seen` dedup over `(col.table, col.column)`. -/
def dedupPairs (cols : List ParsedColumn) : List ParsedColumn :=
  cols.foldl
    (fun acc c =>
      if acc.any (fun d => d.table = c.table ∧ d.column = c.column) then acc else acc ++ [c]) []

/-- `f"- {table}.{col.column}"` with `"?"` for an empty table. -/
def selColLine (c : ParsedColumn) : String :=
  "- " ++ (if c.table = "" then "?" else c.table) ++ "." ++ c.column

/-- The lines of one branch of the SELECT section (the header line keeps
its leading `"\n"` exactly as the source appends it). -/
def branchLines (b : ParsedBranch) : List String :=
  (if b.condition ≠ "" then "\n**[" ++ b.condition ++ "]**" else "\n**[기본]**") ::
    (dedupPairs b.select_columns).map selColLine

/-- The WHERE-section dedup over `(table, column, parameter)`. -/
def dedupWhere (cols : List ParsedColumn) : List ParsedColumn :=
  cols.foldl
    (fun acc c =>
      if acc.any (fun d => d.table = c.table ∧ d.column = c.column ∧ d.parameter = c.parameter)
      then acc else acc ++ [c]) []

/-- `f"- {table}.{col.column} ← {col.parameter}"`. -/
def whereLine (c : ParsedColumn) : String :=
  "- " ++ (if c.table = "" then "?" else c.table) ++ "." ++ c.column ++ " ← " ++ c.parameter

/-- The `lines` list of `SQLParser.to_structured_text`. -/
def structuredLines (r : ParseResult) : List String :=
  ["## SQL 파서 전처리 결과", ""] ++
  (if r.procedure_name ≠ "" then ["### 프로시저명: " ++ r.procedure_name, ""] else []) ++
  (if r.parameters ≠ [] then ("### 파라미터" :: r.parameters.map paramLine) ++ [""] else []) ++
  (if uniqueTables r.all_tables ≠ [] then
    ("### 사용 테이블" :: (uniqueTables r.all_tables).map tableLine) ++ [""] else []) ++
  (if r.branches ≠ [] then
    ("### 분기별 출력 컬럼 (SELECT)" :: (r.branches.map branchLines).flatten) ++ [""] else []) ++
  (if r.all_where_columns.filter (fun c => c.parameter ≠ "") ≠ [] then
    ("### 입력 컬럼 (WHERE 조건)" ::
      (dedupWhere (r.all_where_columns.filter (fun c => c.parameter ≠ ""))).map whereLine) ++ [""]
   else [])

/-- `"\n".join(lines)`. -/
def joinNl : List String → String
  | [] => ""
  | [a] => a
  | a :: b :: rest => a ++ "\n" ++ joinNl (b :: rest)

/-- `SQLParser.to_structured_text`. -/
def toStructuredText (r : ParseResult) : String := joinNl (structuredLines r)

/-! ## Re-scanning the serialized hint text

These functions are not part of the source; they implement the
re-scanning reader of the round-trip property: split the document into
physical lines, find a section header line, and count the `"- "` entry
lines up to the next `"### "` header. -/

/-- Split a character list at every newline (`text.split("\n")`). -/
def splitNl : List Char → List (List Char)
  | [] => [[]]
  | c :: cs => if c = '\n' then [] :: splitNl cs else (splitNl cs).modifyHead (c :: ·)

/-- The entry lines of the section under the given header line: the lines
after the first line equal to `header`, up to the next `"### "` line. -/
def sectionBody : List (List Char) → List Char → List (List Char)
  | [], _ => []
  | l :: ls, h =>
    if l = h then ls.takeWhile (fun l' => ¬ (['#', '#', '#', ' '].isPrefixOf l'))
    else sectionBody ls h

/-- Number of `"- "` entry lines in a section of the serialized text. -/
def sectionEntryCount (s : String) (header : String) : Nat :=
  ((sectionBody (splitNl s.data) header.data).filter
    (fun l => ['-', ' '].isPrefixOf l)).length

/-- Tables recovered by re-scanning the hint text. -/
def rescanTableCount (s : String) : Nat := sectionEntryCount s "### 사용 테이블"

/-- Distinct per-branch select-column pairs recovered by re-scanning the
hint text. -/
def rescanSelectCount (s : String) : Nat := sectionEntryCount s "### 분기별 출력 컬럼 (SELECT)"

/-- No newline in the string (fields assumed line-safe for the round
trip). -/
def nlFree (s : String) : Bool := s.data.all (fun c => c ≠ '\n')

/-- Every text field that `to_structured_text` interpolates into a line
is newline-free. -/
def nlFreeResult (r : ParseResult) : Bool :=
  nlFree r.procedure_name &&
  r.parameters.all (fun p => nlFree p.name && nlFree p.type && nlFree p.default) &&
  r.all_tables.all (fun t => nlFree t.name && nlFree t.alias) &&
  r.branches.all (fun b => nlFree b.condition &&
    b.select_columns.all (fun c => nlFree c.table && nlFree c.column)) &&
  r.all_where_columns.all (fun c => nlFree c.table && nlFree c.column && nlFree c.parameter)

/-- The physical lines contributed by a list of logical lines (each
logical line may itself contain newlines). -/
def mapSplit (L : List String) : List (List Char) :=
  (L.map (fun s => splitNl s.data)).flatten

/-- The physical lines one branch contributes to the SELECT section: an
empty line (from the leading newline of the header), the header line, and
one entry line per deduplicated pair. -/
def branchPhysLines (b : ParsedBranch) : List (List Char) :=
  [[], (if b.condition ≠ "" then "**[" ++ b.condition ++ "]**" else "**[기본]**").data] ++
    (dedupPairs b.select_columns).map (fun c => (selColLine c).data)

/-- Physical lines of the fixed document prologue. -/
def preA : List (List Char) := ["## SQL 파서 전처리 결과".data, []]

/-- Physical lines of the procedure-name section. -/
def preB (r : ParseResult) : List (List Char) :=
  if r.procedure_name ≠ "" then [("### 프로시저명: " ++ r.procedure_name).data, []] else []

/-- Physical lines of the parameter section. -/
def preC (r : ParseResult) : List (List Char) :=
  if r.parameters ≠ [] then
    ("### 파라미터".data :: r.parameters.map (fun p => (paramLine p).data)) ++ [[]]
  else []

/-- Physical lines of the table section. -/
def secD (r : ParseResult) : List (List Char) :=
  if uniqueTables r.all_tables ≠ [] then
    ("### 사용 테이블".data :: (uniqueTables r.all_tables).map (fun t => (tableLine t).data)) ++
      [[]]
  else []

/-- Physical lines of the per-branch SELECT section. -/
def secE (r : ParseResult) : List (List Char) :=
  if r.branches ≠ [] then
    ("### 분기별 출력 컬럼 (SELECT)".data :: (r.branches.map branchPhysLines).flatten) ++ [[]]
  else []

/-- Physical lines of the WHERE section. -/
def secF (r : ParseResult) : List (List Char) :=
  if r.all_where_columns.filter (fun c => c.parameter ≠ "") ≠ [] then
    ("### 입력 컬럼 (WHERE 조건)".data ::
      (dedupWhere (r.all_where_columns.filter (fun c => c.parameter ≠ ""))).map
        (fun c => (whereLine c).data)) ++ [[]]
  else []

/-- A parse result exercising every section: a duplicated table name, a
branch with a duplicated select pair, and a WHERE entry. -/
def c9ResultW : ParseResult :=
  { procedure_name := "P"
    parameters := [⟨"@a", "INT", ""⟩]
    all_tables := [⟨"T", "t", false, ""⟩, ⟨"T", "", false, ""⟩, ⟨"U", "", true, ""⟩]
    branches := [⟨"", [], [⟨"T", "x", true, false, "", ""⟩, ⟨"T", "x", true, false, "", ""⟩,
      ⟨"U", "y", true, false, "", ""⟩], []⟩]
    all_where_columns := [⟨"T", "x", false, true, "@a", ""⟩] }

/-! ## `oracle_mapper.py`: record shapes and constructors -/

/-- `ColumnInfo` dataclass. -/
structure ColumnInfo where
  table_kor : String
  table_eng : String
  col_kor : String
  col_eng : String
  data_type : String
  length : String
  pk : String
  fk : String
  is_mapped : Bool := true
deriving DecidableEq, Repr

/-- `TableInfo` dataclass. -/
structure TableInfo where
  table_kor : String
  table_eng : String
  is_mapped : Bool := true
deriving DecidableEq, Repr

/-- `OracleMapper.create_unmapped_table_info`. -/
def create_unmapped_table_info (old_table_name : String) : TableInfo :=
  { table_kor := "[매핑없음] " ++ old_table_name, table_eng := old_table_name,
    is_mapped := false }

/-- `OracleMapper.create_unmapped_column_info`. -/
def create_unmapped_column_info (old_table_name old_column_name : String) : ColumnInfo :=
  { table_kor := "[매핑없음] " ++ old_table_name, table_eng := old_table_name,
    col_kor := "[매핑없음] " ++ old_column_name, col_eng := old_column_name,
    data_type := "", length := "", pk := "", fk := "", is_mapped := false }

/-- `OracleMapper.create_derived_table_info`. -/
def create_derived_table_info (a : String) : TableInfo :=
  { table_kor := "[인라인뷰] " ++ a, table_eng := "[인라인뷰] " ++ a, is_mapped := false }

/-- `OracleMapper.create_derived_column_info`. -/
def create_derived_column_info (a column_name : String) : ColumnInfo :=
  { table_kor := "[인라인뷰] " ++ a, table_eng := "[인라인뷰] " ++ a,
    col_kor := column_name, col_eng := column_name,
    data_type := "", length := "", pk := "", fk := "", is_mapped := false }

/-! ## `gemini_analyzer.py`: the analysis-result shapes consumed by
`process_mapping` (the fields it does not read are omitted) -/

/-- `TableUsage` dataclass. -/
structure TableUsage where
  name : String
  «alias» : String := ""
  is_derived : Bool := false
deriving DecidableEq, Repr

/-- `ColumnMapping` dataclass. -/
structure ColumnMapping where
  table : String
  column : String
  parameter : String := ""
  is_derived : Bool := false
deriving DecidableEq, Repr

/-- `AnalysisResult` (the fields `process_mapping` reads). -/
structure AnalysisResult where
  input_columns : List ColumnMapping := []
  output_columns : List ColumnMapping := []
  tables : List TableUsage := []
deriving DecidableEq, Repr

/-! ## The external schema-mapping store and the batch lookups

`main.py` calls `mapper.get_columns_batch`, `mapper.get_tables_batch` and
`mapper.get_all_columns_for_table`, but these methods are not part of the
repository snapshot (`oracle_mapper.py` only carries the single-row
lookups and record constructors).  They are modelled from the spec
(§4.5): the store answers per-key lookups matched case-insensitively; a
batch call issues **one** external request covering all its keys and
builds a dict keyed by the upper-cased names; `get_all_columns_for_table`
asks the store for every mapped column of one table (one request per
call).  The `Request` log records every external round trip. -/

/-- Modelled from the spec: the external schema-mapping store.  Lookups
are matched case-insensitively by the store, so each lookup function is
applied to upper-cased keys. -/
structure MapperStore where
  columnInfo : String → String → Option ColumnInfo
  tableInfo : String → Option TableInfo
  allColumns : String → List ColumnInfo

/-- One external round trip to the store. -/
inductive Request where
  | colsBatch (pairs : List (String × String))
  | tblsBatch (tables : List String)
  | allColsFor (table : String)
deriving DecidableEq, Repr

abbrev ColCache := List ((String × String) × ColumnInfo)
abbrev TblCache := List (String × TableInfo)

def colCacheInsert (m : ColCache) (k : String × String) (v : ColumnInfo) : ColCache :=
  if m.any (·.1 = k) then m.map (fun p => if p.1 = k then (k, v) else p) else m ++ [(k, v)]

def colCacheGet (m : ColCache) (k : String × String) : Option ColumnInfo :=
  (m.find? (·.1 = k)).map (·.2)

def tblCacheInsert (m : TblCache) (k : String) (v : TableInfo) : TblCache :=
  if m.any (·.1 = k) then m.map (fun p => if p.1 = k then (k, v) else p) else m ++ [(k, v)]

def tblCacheGet (m : TblCache) (k : String) : Option TableInfo :=
  (m.find? (·.1 = k)).map (·.2)

/-- Modelled from the spec: `get_columns_batch` — one external request for
all pairs, producing a dict keyed by `(table.upper(), column.upper())`;
keys with no mapping row are simply absent. -/
def getColumnsBatch (st : MapperStore) (pairs : List (String × String)) : ColCache :=
  pairs.foldl
    (fun m p =>
      match st.columnInfo p.1.toUpper p.2.toUpper with
      | some ci => colCacheInsert m (p.1.toUpper, p.2.toUpper) ci
      | none => m) []

/-- Modelled from the spec: `get_tables_batch` — one external request for
all table names, keyed by `table.upper()`. -/
def getTablesBatch (st : MapperStore) (tbls : List String) : TblCache :=
  tbls.foldl
    (fun m t =>
      match st.tableInfo t.toUpper with
      | some ti => tblCacheInsert m t.toUpper ti
      | none => m) []

/-! ## `main.py` `process_mapping` -/

/-- Python `set` with a deterministic (insertion) iteration order; the
source iterates `set` objects whose order is unspecified, and no claim
below depends on that order. -/
def setInsert [DecidableEq α] (l : List α) (a : α) : List α :=
  if a ∈ l then l else l ++ [a]

/-- `list(set(xs))` for the column-request tuples. -/
def dedupList [DecidableEq α] (l : List α) : List α := l.foldl setInsert []

/-- The collection phase (step 1 of `process_mapping`): one field per
local variable of the source. -/
structure CollectState where
  column_requests : List (String × String) := []
  table_requests : List String := []
  input_column_keys : List (String × String × Bool × Option String) := []
  input_derived_set : List String := []
  output_column_keys : List (String × String × Bool × Option String) := []
  star_column_tables : List (String × Bool × Option String) := []
  output_derived_set : List String := []
deriving DecidableEq, Repr

/-- `append if no entry shares (table_eng, col_eng)` — the dedup idiom of
step 3. -/
def appendColChecked (l : List ColumnInfo) (ci : ColumnInfo) : List ColumnInfo :=
  if l.any (fun c => c.table_eng = ci.table_eng && c.col_eng = ci.col_eng) then l
  else l ++ [ci]

/-- The outputs of `process_mapping`, plus the log of external requests
issued. -/
structure MappingOutput where
  input_tables : List TableInfo
  input_columns : List ColumnInfo
  output_tables : List TableInfo
  output_columns : List ColumnInfo
  log : List Request
deriving DecidableEq, Repr

/-- The alias-resolution dict built from the analysis tables
(`alias_to_table` in the source): aliases first, then the table name
mapping to itself. -/
def aliasToTable (tables : List TableUsage) : AliasMap :=
  tables.foldl
    (fun m t =>
      let m := if t.alias ≠ "" then amInsert m t.alias t.name else m
      amInsert m t.name t.name) []

/-- The set of derived (inline-view) table names and aliases
(`derived_tables` in the source). -/
def derivedTables (tables : List TableUsage) : List String :=
  tables.foldl
    (fun s t =>
      if t.is_derived then
        let s := setInsert s t.name
        if t.alias ≠ "" then setInsert s t.alias else s
      else s) []

/-- `alias_to_table.get(tbl, tbl)` for one column mapping. -/
def origOf (a2t : AliasMap) (c : ColumnMapping) : String :=
  (amGet a2t c.table).getD c.table

/-- The derived test of the collection loops. -/
def isDerivedOf (a2t : AliasMap) (dts : List String) (c : ColumnMapping) : Bool :=
  c.is_derived || c.table ∈ dts || origOf a2t c ∈ dts

/-- The alias recorded for a derived reference. -/
def derivedAliasOf (a2t : AliasMap) (dts : List String) (c : ColumnMapping) : String :=
  if c.table ∈ dts then c.table else origOf a2t c

/-- One input-column step of the collection phase (step 1 of
`process_mapping`). -/
def collectInputStep (alias_to_table : AliasMap) (derived_tables : List String)
    (acc : CollectState) (c : ColumnMapping) : CollectState :=
  if isDerivedOf alias_to_table derived_tables c then
    { acc with
        input_column_keys := acc.input_column_keys ++
          [(origOf alias_to_table c, c.column, true,
            some (derivedAliasOf alias_to_table derived_tables c))]
        input_derived_set := setInsert acc.input_derived_set
          (derivedAliasOf alias_to_table derived_tables c) }
  else
    { acc with
        input_column_keys := acc.input_column_keys ++
          [(origOf alias_to_table c, c.column, false, none)]
        column_requests := acc.column_requests ++ [(origOf alias_to_table c, c.column)]
        table_requests := setInsert acc.table_requests (origOf alias_to_table c) }

/-- One output-column step of the collection phase (step 1 of
`process_mapping`); a star on a non-derived table goes to
`star_column_tables` instead of `column_requests`. -/
def collectOutputStep (alias_to_table : AliasMap) (derived_tables : List String)
    (acc : CollectState) (c : ColumnMapping) : CollectState :=
  if isDerivedOf alias_to_table derived_tables c then
    { acc with
        output_column_keys := acc.output_column_keys ++
          [(origOf alias_to_table c, c.column, true,
            some (derivedAliasOf alias_to_table derived_tables c))]
        output_derived_set := setInsert acc.output_derived_set
          (derivedAliasOf alias_to_table derived_tables c) }
  else if c.column = "*" then
    { acc with
        star_column_tables := acc.star_column_tables ++ [(origOf alias_to_table c, false, none)]
        table_requests := setInsert acc.table_requests (origOf alias_to_table c) }
  else
    { acc with
        output_column_keys := acc.output_column_keys ++
          [(origOf alias_to_table c, c.column, false, none)]
        column_requests := acc.column_requests ++ [(origOf alias_to_table c, c.column)]
        table_requests := setInsert acc.table_requests (origOf alias_to_table c) }

/-- The whole collection phase: the input-column loop then the
output-column loop. -/
def collectPhase (analysis : AnalysisResult) : CollectState :=
  let alias_to_table := aliasToTable analysis.tables
  let derived_tables := derivedTables analysis.tables
  analysis.output_columns.foldl (collectOutputStep alias_to_table derived_tables)
    (analysis.input_columns.foldl (collectInputStep alias_to_table derived_tables) {})

/-- One step of the input-column / output-column mapping loops (step 3):
a derived key appends its inline-view record, a plain key appends the
cached mapping (or the unmapped record) — both through the
`(table_eng, col_eng)` dedup check — and remembers the table. -/
def colKeyStep (column_cache : ColCache) (acc : List ColumnInfo × List String)
    (k : String × String × Bool × Option String) : List ColumnInfo × List String :=
  match k with
  | (original_table, col, is_derived, a) =>
    if is_derived then
      (appendColChecked acc.1 (create_derived_column_info (a.getD "") col), acc.2)
    else
      let ci := (colCacheGet column_cache (original_table.toUpper, col.toUpper)).getD
        (create_unmapped_column_info original_table col)
      (appendColChecked acc.1 ci, setInsert acc.2 original_table)

/-- One step of the star-expansion loop (step 3, output side): a star on
a table with mapped columns appends every mapped column through the dedup
check; a star on an unmapped table appends the `(table, "*")` unmapped
record with **no** dedup check. -/
def starStep (st : MapperStore) (acc : List ColumnInfo × List String × List Request)
    (k : String × Bool × Option String) : List ColumnInfo × List String × List Request :=
  match k with
  | (original_table, is_derived, a) =>
    if is_derived then
      -- unreachable: star_column_tables entries always carry False
      (acc.1 ++ [create_derived_column_info (a.getD "") "*"], acc.2.1, acc.2.2)
    else
      let all_cols := st.allColumns original_table
      let log := acc.2.2 ++ [.allColsFor original_table]
      if all_cols.isEmpty then
        (acc.1 ++ [create_unmapped_column_info original_table "*"],
          setInsert acc.2.1 original_table, log)
      else
        (all_cols.foldl appendColChecked acc.1,
          setInsert acc.2.1 original_table, log)

/-- `main.py` `process_mapping` (the batched mapping phase). -/
def processMapping (st : MapperStore) (analysis : AnalysisResult) : MappingOutput :=
  let collected := collectPhase analysis
  -- step 2: the two batched store calls
  let unique_column_requests := dedupList collected.column_requests
  let unique_table_requests := collected.table_requests
  let column_cache := getColumnsBatch st unique_column_requests
  let table_cache := getTablesBatch st unique_table_requests
  let log0 : List Request :=
    [.colsBatch unique_column_requests, .tblsBatch unique_table_requests]
  -- step 3: input columns
  let inputStep := collected.input_column_keys.foldl (colKeyStep column_cache) ([], [])
  let input_columns := inputStep.1
  let input_tables :=
    inputStep.2.map (fun t =>
      (tblCacheGet table_cache t.toUpper).getD (create_unmapped_table_info t)) ++
    collected.input_derived_set.map create_derived_table_info
  -- step 3: output columns — star expansion first
  let starred := collected.star_column_tables.foldl (starStep st) ([], [], [])
  let outputStep := collected.output_column_keys.foldl (colKeyStep column_cache)
    (starred.1, starred.2.1)
  let output_columns := outputStep.1
  let output_tables :=
    outputStep.2.map (fun t =>
      (tblCacheGet table_cache t.toUpper).getD (create_unmapped_table_info t)) ++
    collected.output_derived_set.map create_derived_table_info
  { input_tables := input_tables
    input_columns := input_columns
    output_tables := output_tables
    output_columns := output_columns
    log := log0 ++ starred.2.2 }

/-- The `(table_eng, col_eng)` identity key used by the dedup checks. -/
def colKeys (l : List ColumnInfo) : List (String × String) :=
  l.map (fun c => (c.table_eng, c.col_eng))

/-- A store with no mapping rows at all. -/
def emptyStore : MapperStore :=
  { columnInfo := fun _ _ => none, tableInfo := fun _ => none, allColumns := fun _ => [] }

/-- An analysis whose output references `T.*` twice, `T` unmapped. -/
def c7Analysis : AnalysisResult :=
  { output_columns := [⟨"T", "*", "", false⟩, ⟨"T", "*", "", false⟩],
    tables := [⟨"T", "", false⟩] }

/-- An analysis with duplicated plain input and output column references
and no star. -/
def c7AnalysisW : AnalysisResult :=
  { input_columns := [⟨"T", "a", "", false⟩, ⟨"T", "a", "", false⟩],
    output_columns := [⟨"T", "b", "", false⟩, ⟨"T", "b", "", false⟩],
    tables := [⟨"T", "", false⟩] }

/-- Whether a logged request is the batched column lookup. -/
def isColsBatch : Request → Bool
  | .colsBatch _ => true
  | _ => false

/-- Whether a logged request is the batched table lookup. -/
def isTblsBatch : Request → Bool
  | .tblsBatch _ => true
  | _ => false

/-- The key one input column contributes to `input_column_keys`. -/
def inKeyOf (a2t : AliasMap) (dts : List String) (c : ColumnMapping) :
    String × String × Bool × Option String :=
  if isDerivedOf a2t dts c then
    (origOf a2t c, c.column, true, some (derivedAliasOf a2t dts c))
  else (origOf a2t c, c.column, false, none)

/-- The pairs one input column contributes to `column_requests`. -/
def reqOf (a2t : AliasMap) (dts : List String) (c : ColumnMapping) :
    List (String × String) :=
  if isDerivedOf a2t dts c then [] else [(origOf a2t c, c.column)]

/-- The pairs one output column contributes to `column_requests`. -/
def outReqOf (a2t : AliasMap) (dts : List String) (c : ColumnMapping) :
    List (String × String) :=
  if isDerivedOf a2t dts c then []
  else if c.column = "*" then []
  else [(origOf a2t c, c.column)]

/-- The keys one output column contributes to `output_column_keys`. -/
def outKeysOf (a2t : AliasMap) (dts : List String) (c : ColumnMapping) :
    List (String × String × Bool × Option String) :=
  if isDerivedOf a2t dts c then
    [(origOf a2t c, c.column, true, some (derivedAliasOf a2t dts c))]
  else if c.column = "*" then []
  else [(origOf a2t c, c.column, false, none)]

/-- The entries one output column contributes to `star_column_tables`. -/
def outStarOf (a2t : AliasMap) (dts : List String) (c : ColumnMapping) :
    List (String × Bool × Option String) :=
  if isDerivedOf a2t dts c then []
  else if c.column = "*" then [(origOf a2t c, false, none)]
  else []

/-- How one column mapping updates `table_requests` (the same in both
collection loops: a non-derived reference registers its table). -/
def tblStepOf (a2t : AliasMap) (dts : List String) (ts : List String)
    (c : ColumnMapping) : List String :=
  if isDerivedOf a2t dts c then ts else setInsert ts (origOf a2t c)

/-- How one column mapping updates its derived-alias set. -/
def dsetStepOf (a2t : AliasMap) (dts : List String) (ds : List String)
    (c : ColumnMapping) : List String :=
  if isDerivedOf a2t dts c then setInsert ds (derivedAliasOf a2t dts c) else ds

/-- An analysis referencing the same input column twice. -/
def c1AnalysisW : AnalysisResult :=
  { input_columns := [⟨"T", "a", "", false⟩, ⟨"T", "a", "", false⟩],
    tables := [⟨"T", "", false⟩] }

/-- `c1AnalysisW` with the duplicate occurrence removed. -/
def c1AnalysisB : AnalysisResult :=
  { input_columns := [⟨"T", "a", "", false⟩],
    tables := [⟨"T", "", false⟩] }

/-- A nonempty all-word-character token. -/
def okWord (s : String) : Bool := !s.data.isEmpty && s.data.all wordCh

/-- The text of a comma-separated list of dotted `table.column`
references. -/
def renderPairs : List (String × String) → List Char
  | [] => []
  | [p] => p.1.data ++ '.' :: p.2.data
  | p :: q :: rest => p.1.data ++ '.' :: p.2.data ++ ',' :: ' ' :: renderPairs (q :: rest)

/-! ## Shared lemmas for the claims -/

theorem mem_setInsert [DecidableEq α] (s : List α) (a p : α) :
    p ∈ setInsert s a ↔ p ∈ s ∨ p = a := by
  unfold setInsert
  split
  next h => exact ⟨Or.inl, fun hp => hp.elim id (fun he => he ▸ h)⟩
  · simp

theorem setInsert_nodup [DecidableEq α] {s : List α} (a : α) (h : s.Nodup) :
    (setInsert s a).Nodup := by
  unfold setInsert
  split
  · exact h
  next hn =>
    rw [List.nodup_append]
    exact ⟨h, List.nodup_singleton a, fun x hx hx2 => by
      rw [List.mem_singleton] at hx2
      subst hx2
      exact hn hx⟩

theorem setInsert_idem [DecidableEq α] (s : List α) (a : α) :
    setInsert (setInsert s a) a = setInsert s a := by
  have hm : a ∈ setInsert s a := (mem_setInsert s a a).mpr (Or.inr rfl)
  conv_lhs => rw [setInsert]
  rw [if_pos hm]

theorem mem_foldl_setInsert [DecidableEq α] :
    ∀ (l s : List α) (p : α), p ∈ l.foldl setInsert s ↔ p ∈ s ∨ p ∈ l
  | [], s, p => by simp
  | a :: l, s, p => by
    rw [List.foldl_cons, mem_foldl_setInsert l (setInsert s a) p, mem_setInsert]
    simp only [List.mem_cons]
    tauto

theorem nodup_foldl_setInsert [DecidableEq α] :
    ∀ (l s : List α), s.Nodup → (l.foldl setInsert s).Nodup
  | [], _, h => h
  | a :: l, s, h => nodup_foldl_setInsert l (setInsert s a) (setInsert_nodup a h)

/-- `list(set(xs))` carries pairwise-distinct entries. -/
theorem dedupList_nodup [DecidableEq α] (l : List α) : (dedupList l).Nodup :=
  nodup_foldl_setInsert l [] List.nodup_nil

/-- `list(set(xs))` covers exactly the entries of `xs`. -/
theorem mem_dedupList [DecidableEq α] (l : List α) (p : α) :
    p ∈ dedupList l ↔ p ∈ l := by
  unfold dedupList
  rw [mem_foldl_setInsert]
  simp

/-- The checked append is idempotent. -/
theorem appendColChecked_idem (l : List ColumnInfo) (ci : ColumnInfo) :
    appendColChecked (appendColChecked l ci) ci = appendColChecked l ci := by
  have hin : (appendColChecked l ci).any
      (fun c => c.table_eng = ci.table_eng && c.col_eng = ci.col_eng) = true := by
    unfold appendColChecked
    split
    next h => exact h
    · rw [List.any_eq_true]
      exact ⟨ci, by simp, by simp⟩
  conv_lhs => rw [appendColChecked]
  rw [if_pos hin]

/-- One column-mapping step is idempotent: a repeated key changes
nothing. -/
theorem colKeyStep_idem (cache : ColCache) (acc : List ColumnInfo × List String)
    (k : String × String × Bool × Option String) :
    colKeyStep cache (colKeyStep cache acc k) k = colKeyStep cache acc k := by
  obtain ⟨t, c, d, a⟩ := k
  unfold colKeyStep
  dsimp only
  split
  · rw [appendColChecked_idem]
  · rw [appendColChecked_idem, setInsert_idem]

/-- A fold over a list with an adjacent duplicate equals the fold without
it when the step is idempotent at the duplicated element. -/
theorem foldl_adjacent_dup {α σ : Type _} (f : σ → α → σ) (x : α)
    (hid : ∀ s, f (f s x) x = f s x) (l1 l2 : List α) (s : σ) :
    (l1 ++ x :: x :: l2).foldl f s = (l1 ++ x :: l2).foldl f s := by
  rw [List.foldl_append, List.foldl_append]
  simp only [List.foldl_cons]
  rw [hid]

/-- `tblStepOf` is idempotent. -/
theorem tblStepOf_idem (a2t : AliasMap) (dts : List String) (ts : List String)
    (c : ColumnMapping) :
    tblStepOf a2t dts (tblStepOf a2t dts ts c) c = tblStepOf a2t dts ts c := by
  unfold tblStepOf
  split
  · rfl
  · rw [setInsert_idem]

/-- `dsetStepOf` is idempotent. -/
theorem dsetStepOf_idem (a2t : AliasMap) (dts : List String) (ds : List String)
    (c : ColumnMapping) :
    dsetStepOf a2t dts (dsetStepOf a2t dts ds c) c = dsetStepOf a2t dts ds c := by
  unfold dsetStepOf
  split
  · rw [setInsert_idem]
  · rfl

/-- Closed form of the input-column collection loop: every field is a
per-item contribution appended (or set-inserted) in order, and the output
fields are untouched. -/
theorem collectInput_fold (a2t : AliasMap) (dts : List String) :
    ∀ (l : List ColumnMapping) (s : CollectState),
    l.foldl (collectInputStep a2t dts) s =
      { column_requests := s.column_requests ++ (l.map (reqOf a2t dts)).flatten
        table_requests := l.foldl (tblStepOf a2t dts) s.table_requests
        input_column_keys := s.input_column_keys ++ l.map (inKeyOf a2t dts)
        input_derived_set := l.foldl (dsetStepOf a2t dts) s.input_derived_set
        output_column_keys := s.output_column_keys
        star_column_tables := s.star_column_tables
        output_derived_set := s.output_derived_set }
  | [], s => by simp
  | c :: l, s => by
    rw [List.foldl_cons, collectInput_fold a2t dts l (collectInputStep a2t dts s c)]
    show _ = ({ column_requests := s.column_requests ++ ((c :: l).map (reqOf a2t dts)).flatten
                table_requests := (c :: l).foldl (tblStepOf a2t dts) s.table_requests
                input_column_keys := s.input_column_keys ++ (c :: l).map (inKeyOf a2t dts)
                input_derived_set := (c :: l).foldl (dsetStepOf a2t dts) s.input_derived_set
                output_column_keys := s.output_column_keys
                star_column_tables := s.star_column_tables
                output_derived_set := s.output_derived_set } : CollectState)
    simp only [List.map_cons, List.flatten_cons, List.foldl_cons]
    unfold collectInputStep inKeyOf reqOf tblStepOf dsetStepOf
    split <;> simp

/-- Closed form of the output-column collection loop. -/
theorem collectOutput_fold (a2t : AliasMap) (dts : List String) :
    ∀ (l : List ColumnMapping) (s : CollectState),
    l.foldl (collectOutputStep a2t dts) s =
      { column_requests := s.column_requests ++ (l.map (outReqOf a2t dts)).flatten
        table_requests := l.foldl (tblStepOf a2t dts) s.table_requests
        input_column_keys := s.input_column_keys
        input_derived_set := s.input_derived_set
        output_column_keys := s.output_column_keys ++ (l.map (outKeysOf a2t dts)).flatten
        star_column_tables := s.star_column_tables ++ (l.map (outStarOf a2t dts)).flatten
        output_derived_set := l.foldl (dsetStepOf a2t dts) s.output_derived_set }
  | [], s => by simp
  | c :: l, s => by
    rw [List.foldl_cons, collectOutput_fold a2t dts l (collectOutputStep a2t dts s c)]
    show _ = ({ column_requests := s.column_requests ++ ((c :: l).map (outReqOf a2t dts)).flatten
                table_requests := (c :: l).foldl (tblStepOf a2t dts) s.table_requests
                input_column_keys := s.input_column_keys
                input_derived_set := s.input_derived_set
                output_column_keys := s.output_column_keys ++ ((c :: l).map (outKeysOf a2t dts)).flatten
                star_column_tables := s.star_column_tables ++ ((c :: l).map (outStarOf a2t dts)).flatten
                output_derived_set := (c :: l).foldl (dsetStepOf a2t dts) s.output_derived_set } : CollectState)
    simp only [List.map_cons, List.flatten_cons, List.foldl_cons]
    unfold collectOutputStep outKeysOf outReqOf outStarOf tblStepOf dsetStepOf
    split <;> try (split <;> simp)
    simp


/-- A fold preserves any invariant its step preserves. -/
theorem foldl_preserves {α σ : Type _} (P : σ → Prop) (f : σ → α → σ) :
    ∀ (l : List α) (s : σ), P s → (∀ s a, a ∈ l → P s → P (f s a)) → P (l.foldl f s)
  | [], _, hs, _ => hs
  | a :: l, s, hs, hstep =>
    foldl_preserves P f l (f s a) (hstep s a (List.mem_cons_self a l) hs)
      (fun s b hb => hstep s b (List.mem_cons_of_mem a hb))

/-- The checked append preserves key distinctness. -/
theorem appendColChecked_keys_nodup {l : List ColumnInfo} (ci : ColumnInfo)
    (h : (colKeys l).Nodup) : (colKeys (appendColChecked l ci)).Nodup := by
  unfold appendColChecked
  split
  · exact h
  next hn =>
    have hmem : (ci.table_eng, ci.col_eng) ∉ colKeys l := by
      intro hm
      simp only [colKeys, List.mem_map] at hm
      obtain ⟨c, hc, hk⟩ := hm
      apply hn
      rw [List.any_eq_true]
      refine ⟨c, hc, ?_⟩
      simp only [Prod.mk.injEq] at hk
      simp [hk.1, hk.2]
    have he : colKeys (l ++ [ci]) = colKeys l ++ [(ci.table_eng, ci.col_eng)] := by
      simp [colKeys]
    rw [he, List.nodup_append]
    exact ⟨h, List.nodup_singleton _, by
      intro x hx hx2
      rw [List.mem_singleton] at hx2
      subst hx2
      exact hmem hx⟩

/-- Each column-mapping step goes through the checked append, so key
distinctness is invariant. -/
theorem colKeyStep_keys_nodup (cache : ColCache) (acc : List ColumnInfo × List String)
    (k : String × String × Bool × Option String)
    (h : (colKeys acc.1).Nodup) : (colKeys (colKeyStep cache acc k).1).Nodup := by
  unfold colKeyStep
  obtain ⟨t, c, d, a⟩ := k
  dsimp only
  split
  · exact appendColChecked_keys_nodup _ h
  · exact appendColChecked_keys_nodup _ h

/-- The input-column collection loop never touches `star_column_tables`. -/
theorem collectInputStep_star (a2t : AliasMap) (dts : List String)
    (acc : CollectState) (c : ColumnMapping) :
    (collectInputStep a2t dts acc c).star_column_tables = acc.star_column_tables := by
  unfold collectInputStep
  split <;> rfl

/-- The output-column collection loop touches `star_column_tables` only
for a star column. -/
theorem collectOutputStep_star (a2t : AliasMap) (dts : List String)
    (acc : CollectState) (c : ColumnMapping) (h : c.column ≠ "*") :
    (collectOutputStep a2t dts acc c).star_column_tables = acc.star_column_tables := by
  unfold collectOutputStep
  split <;> try rfl

/-- With no star among the output columns, the collection phase gathers
no star tables. -/
theorem collectPhase_star_nil (analysis : AnalysisResult)
    (h : ∀ c ∈ analysis.output_columns, c.column ≠ "*") :
    (collectPhase analysis).star_column_tables = [] := by
  unfold collectPhase
  have h1 : (analysis.input_columns.foldl
      (collectInputStep (aliasToTable analysis.tables) (derivedTables analysis.tables))
      {}).star_column_tables = [] :=
    foldl_preserves (fun s : CollectState => s.star_column_tables = []) _
      analysis.input_columns ({} : CollectState) rfl
      (fun s a _ hp => by
        show (collectInputStep _ _ s a).star_column_tables = []
        rw [collectInputStep_star]
        exact hp)
  exact foldl_preserves (fun s : CollectState => s.star_column_tables = []) _
    analysis.output_columns _ h1
    (fun s a ha hp => by
      show (collectOutputStep _ _ s a).star_column_tables = []
      rw [collectOutputStep_star _ _ _ _ (h a ha)]
      exact hp)


/-- `list(set(xs))` is unchanged by an adjacent duplicate. -/
theorem dedupList_adjacent_dup [DecidableEq α] (x : α) (l1 l2 : List α) :
    dedupList (l1 ++ x :: x :: l2) = dedupList (l1 ++ x :: l2) := by
  unfold dedupList
  exact foldl_adjacent_dup setInsert x (fun s => setInsert_idem s x) l1 l2 []

/-- The star-expansion loop only ever logs per-table `allColsFor`
round trips, never another batch request. -/
theorem starStep_log_requests (st : MapperStore)
    (l : List (String × Bool × Option String))
    (init : List ColumnInfo × List String × List Request)
    (h : ∀ r ∈ init.2.2, isColsBatch r = false ∧ isTblsBatch r = false) :
    ∀ r ∈ (l.foldl (starStep st) init).2.2,
      isColsBatch r = false ∧ isTblsBatch r = false :=
  foldl_preserves
    (fun acc : List ColumnInfo × List String × List Request =>
      ∀ r ∈ acc.2.2, isColsBatch r = false ∧ isTblsBatch r = false)
    (starStep st) l init h
    (fun s k _ hp => by
      obtain ⟨t, d, a⟩ := k
      unfold starStep
      dsimp only
      split
      · exact hp
      · split <;>
        · intro r hr
          rcases List.mem_append.mp hr with h1 | h2
          · exact hp r h1
          · rw [List.mem_singleton] at h2
            subst h2
            exact ⟨rfl, rfl⟩)

/-- Generalized specification of the `unique_tables` dict build: the fold
appends, after the seed, a subsequence of the input whose names are
pairwise distinct and new, covering every input name, each kept entry
being the first occurrence of its name. -/
theorem uniqueTables_go_spec :
    ∀ (l s : List ParsedTable),
      ((s.map (fun t => t.name)).Nodup) →
      ∃ l', l.foldl
          (fun acc t => if acc.any (fun u => u.name = t.name) then acc else acc ++ [t]) s =
          s ++ l' ∧
        l'.Sublist l ∧
        (((s ++ l').map (fun t => t.name)).Nodup) ∧
        (∀ t ∈ l, ∃ u ∈ s ++ l', u.name = t.name) ∧
        (∀ u ∈ l', (∀ w ∈ s, w.name ≠ u.name) ∧
          ∃ l1 l2, l = l1 ++ u :: l2 ∧ ∀ v ∈ l1, v.name ≠ u.name) := by
  intro l
  induction l with
  | nil =>
    intro s hs
    exact ⟨[], by simp, List.nil_sublist _, by simpa using hs, by simp, by simp⟩
  | cons t l ih =>
    intro s hs
    by_cases hany : s.any (fun u => u.name = t.name) = true
    · obtain ⟨l', he, hsub, hnd, hcov, hfirst⟩ := ih s hs
      refine ⟨l', ?_, hsub.cons t, hnd, ?_, ?_⟩
      · rw [List.foldl_cons, if_pos hany]
        exact he
      · intro x hx
        rcases List.mem_cons.mp hx with rfl | hx2
        · obtain ⟨w, hw, hwn⟩ := List.any_eq_true.mp hany
          exact ⟨w, List.mem_append_left _ hw, of_decide_eq_true hwn⟩
        · exact hcov x hx2
      · intro u hu
        obtain ⟨hnots, l1, l2, hdec, hl1⟩ := hfirst u hu
        refine ⟨hnots, t :: l1, l2, by rw [hdec]; rfl, ?_⟩
        intro v hv
        rcases List.mem_cons.mp hv with rfl | hv2
        · obtain ⟨w, hw, hwn⟩ := List.any_eq_true.mp hany
          have hwn' := of_decide_eq_true hwn
          intro hteq
          exact (hnots w hw) (by rw [hwn', hteq])
        · exact hl1 v hv2
    · have hnotin : t.name ∉ s.map (fun t => t.name) := by
        intro hm
        apply hany
        rw [List.any_eq_true]
        simp only [List.mem_map] at hm
        obtain ⟨w, hw, hwn⟩ := hm
        exact ⟨w, hw, decide_eq_true hwn⟩
      have hs' : ((s ++ [t]).map (fun t => t.name)).Nodup := by
        rw [List.map_append, List.nodup_append]
        refine ⟨hs, by simp, ?_⟩
        intro x hx hx2
        simp only [List.map_cons, List.map_nil, List.mem_singleton] at hx2
        subst hx2
        exact hnotin hx
      obtain ⟨l', he, hsub, hnd, hcov, hfirst⟩ := ih (s ++ [t]) hs'
      refine ⟨t :: l', ?_, hsub.cons₂ t, ?_, ?_, ?_⟩
      · rw [List.foldl_cons, if_neg hany, he, List.append_assoc]
        rfl
      · simpa [List.append_assoc] using hnd
      · intro x hx
        rcases List.mem_cons.mp hx with rfl | hx2
        · exact ⟨x, List.mem_append_right _ (List.mem_cons_self x l'), rfl⟩
        · obtain ⟨u, hu, hun⟩ := hcov x hx2
          rw [List.append_assoc] at hu
          exact ⟨u, by simpa using hu, hun⟩
      · intro u hu
        rcases List.mem_cons.mp hu with rfl | hu2
        · refine ⟨?_, [], l, rfl, by simp⟩
          intro w hw heq
          exact hnotin (List.mem_map.mpr ⟨w, hw, heq⟩)
        · obtain ⟨hnots, l1, l2, hdec, hl1⟩ := hfirst u hu2
          refine ⟨fun w hw => hnots w (List.mem_append_left _ hw), t :: l1, l2,
            by rw [hdec]; rfl, ?_⟩
          intro v hv
          rcases List.mem_cons.mp hv with rfl | hv2
          · exact hnots v (List.mem_append_right _ (by simp))
          · exact hl1 v hv2

theorem string_data_append (a b : String) : (a ++ b).data = a.data ++ b.data := rfl

theorem splitNl_ne_nil (cs : List Char) : splitNl cs ≠ [] := by
  induction cs with
  | nil => simp [splitNl]
  | cons c cs ih =>
    unfold splitNl
    split
    · simp
    · cases h : splitNl cs with
      | nil => exact absurd h ih
      | cons a t => simp [List.modifyHead]

/-- Splitting at newlines distributes over an explicit newline. -/
theorem splitNl_append_newline (a b : List Char) :
    splitNl (a ++ '\n' :: b) = splitNl a ++ splitNl b := by
  induction a with
  | nil =>
    show splitNl ('\n' :: b) = splitNl [] ++ splitNl b
    rw [show splitNl ('\n' :: b) = [] :: splitNl b from by simp [splitNl]]
    rfl
  | cons c a ih =>
    by_cases hc : c = '\n'
    · subst hc
      rw [List.cons_append,
        show splitNl ('\n' :: (a ++ '\n' :: b)) = [] :: splitNl (a ++ '\n' :: b) from by
          simp [splitNl],
        show splitNl ('\n' :: a) = [] :: splitNl a from by simp [splitNl],
        ih, List.cons_append]
    · rw [List.cons_append,
        show splitNl (c :: (a ++ '\n' :: b)) =
          (splitNl (a ++ '\n' :: b)).modifyHead (c :: ·) from by simp [splitNl, hc],
        show splitNl (c :: a) = (splitNl a).modifyHead (c :: ·) from by simp [splitNl, hc],
        ih]
      cases h : splitNl a with
      | nil => exact absurd h (splitNl_ne_nil a)
      | cons x xs => simp [List.modifyHead]

/-- A newline-free chunk splits to itself. -/
theorem splitNl_of_nlFree (cs : List Char) (h : cs.all (fun c => c ≠ '\n') = true) :
    splitNl cs = [cs] := by
  induction cs with
  | nil => rfl
  | cons c cs ih =>
    rw [List.all_cons, Bool.and_eq_true] at h
    have hc : ¬ c = '\n' := by simpa using h.1
    rw [show splitNl (c :: cs) = (splitNl cs).modifyHead (c :: ·) from by simp [splitNl, hc],
      ih h.2]
    simp [List.modifyHead]

/-- Splitting the `"\n".join` of the logical lines yields the flattened
per-line splits. -/
theorem splitNl_joinNl : ∀ (l : List String), l ≠ [] →
    splitNl (joinNl l).data = mapSplit l
  | [], h => absurd rfl h
  | [a], _ => by simp [joinNl, mapSplit]
  | a :: b :: rest, _ => by
    show splitNl (a ++ "\n" ++ joinNl (b :: rest)).data = _
    have hd : (a ++ "\n" ++ joinNl (b :: rest)).data =
        a.data ++ '\n' :: (joinNl (b :: rest)).data := by
      rw [string_data_append, string_data_append, List.append_assoc]
      rfl
    rw [hd, splitNl_append_newline, splitNl_joinNl (b :: rest) (by simp)]
    simp [mapSplit]

theorem mapSplit_append (A B : List String) :
    mapSplit (A ++ B) = mapSplit A ++ mapSplit B := by
  simp [mapSplit]

theorem structuredLines_ne_nil (r : ParseResult) : structuredLines r ≠ [] := by
  unfold structuredLines
  simp

theorem splitNl_toStructuredText (r : ParseResult) :
    splitNl (toStructuredText r).data = mapSplit (structuredLines r) := by
  unfold toStructuredText
  exact splitNl_joinNl _ (structuredLines_ne_nil r)

theorem sectionBody_cons (l : List Char) (ls : List (List Char)) (h : List Char) :
    sectionBody (l :: ls) h =
      if l = h then ls.takeWhile (fun l' => ¬ (['#', '#', '#', ' '].isPrefixOf l'))
      else sectionBody ls h := rfl

theorem sectionBody_append_of_ne (ls1 ls2 : List (List Char)) (h : List Char)
    (hne : ∀ l ∈ ls1, l ≠ h) : sectionBody (ls1 ++ ls2) h = sectionBody ls2 h := by
  induction ls1 with
  | nil => rfl
  | cons l ls ih =>
    rw [List.cons_append, sectionBody_cons, if_neg (hne l (by simp))]
    exact ih (fun x hx => hne x (by simp [hx]))

theorem sectionBody_cons_self (ls : List (List Char)) (h : List Char) :
    sectionBody (h :: ls) h =
      ls.takeWhile (fun l' => ¬ (['#', '#', '#', ' '].isPrefixOf l')) := by
  rw [sectionBody_cons, if_pos rfl]

theorem sectionBody_of_ne (ls : List (List Char)) (h : List Char)
    (hne : ∀ l ∈ ls, l ≠ h) : sectionBody ls h = [] := by
  have := sectionBody_append_of_ne ls [] h hne
  rw [List.append_nil] at this
  rw [this]
  rfl

theorem takeWhile_append_of_all {α : Type _} (p : α → Bool) (l1 l2 : List α)
    (h : ∀ x ∈ l1, p x = true) :
    (l1 ++ l2).takeWhile p = l1 ++ l2.takeWhile p := by
  induction l1 with
  | nil => rfl
  | cons a l ih =>
    rw [List.cons_append, List.takeWhile_cons_of_pos (h a (by simp)),
      ih (fun x hx => h x (by simp [hx])), List.cons_append]

theorem length_filter_flatten {α : Type _} (p : α → Bool) (L : List (List α)) :
    ((L.flatten).filter p).length = (L.map (fun l => (l.filter p).length)).sum := by
  induction L with
  | nil => rfl
  | cons l ls ih =>
    simp only [List.flatten_cons, List.filter_append, List.length_append, ih,
      List.map_cons, List.sum_cons]

theorem mapSplit_cons (s : String) (L : List String) :
    mapSplit (s :: L) = splitNl s.data ++ mapSplit L := by
  simp [mapSplit]

theorem mapSplit_of_nlFree : ∀ (L : List String), (∀ s ∈ L, nlFree s = true) →
    mapSplit L = L.map (fun s => s.data)
  | [], _ => rfl
  | s :: L, h => by
    rw [mapSplit_cons, splitNl_of_nlFree _ (h s (by simp)),
      mapSplit_of_nlFree L (fun x hx => h x (by simp [hx]))]
    rfl

theorem nlFree_append (a b : String) : nlFree (a ++ b) = (nlFree a && nlFree b) := by
  simp [nlFree, string_data_append, List.all_append]

/-- A string whose first characters are fixed differs from a target
whose truncation differs. -/
theorem take_based_ne (p x : String) (t : List Char) (n : Nat)
    (hn : n ≤ p.data.length) (hne : p.data.take n ≠ t.take n) :
    (p ++ x).data ≠ t := by
  intro he
  apply hne
  rw [← he, string_data_append, List.take_append_of_le_length hn]

theorem dashHead_ne_hashHead {l t : List Char} (hl : ∃ rest, l = '-' :: ' ' :: rest)
    (ht : t.take 1 = ['#']) : l ≠ t := by
  obtain ⟨rest, rfl⟩ := hl
  intro he
  rw [← he] at ht
  simp at ht

theorem starHead_ne_hashHead {l t : List Char} (hl : ∃ rest, l = '*' :: rest)
    (ht : t.take 1 = ['#']) : l ≠ t := by
  obtain ⟨rest, rfl⟩ := hl
  intro he
  rw [← he] at ht
  simp at ht

theorem nil_ne_hashHead {t : List Char} (ht : t.take 1 = ['#']) :
    ([] : List Char) ≠ t := by
  intro he
  rw [← he] at ht
  simp at ht

theorem paramLine_head (p : ProcParam) : ∃ rest, (paramLine p).data = '-' :: ' ' :: rest :=
  ⟨_, rfl⟩

theorem tableLine_head (t : ParsedTable) : ∃ rest, (tableLine t).data = '-' :: ' ' :: rest :=
  ⟨_, rfl⟩

theorem selColLine_head (c : ParsedColumn) : ∃ rest, (selColLine c).data = '-' :: ' ' :: rest :=
  ⟨_, rfl⟩

theorem whereLine_head (c : ParsedColumn) : ∃ rest, (whereLine c).data = '-' :: ' ' :: rest :=
  ⟨_, rfl⟩

theorem isDash_cons (rest : List Char) :
    ['-', ' '].isPrefixOf ('-' :: ' ' :: rest) = true := by simp [List.isPrefixOf]

theorem notHdr_cons_dash (rest : List Char) :
    ['#', '#', '#', ' '].isPrefixOf ('-' :: rest) = false := by simp [List.isPrefixOf]

theorem notHdr_cons_star (rest : List Char) :
    ['#', '#', '#', ' '].isPrefixOf ('*' :: rest) = false := by simp [List.isPrefixOf]

theorem notHdr_nil : ['#', '#', '#', ' '].isPrefixOf ([] : List Char) = false := rfl

theorem notDash_nil : ['-', ' '].isPrefixOf ([] : List Char) = false := rfl

theorem notDash_cons_star (rest : List Char) :
    ['-', ' '].isPrefixOf ('*' :: rest) = false := rfl

theorem nlFree_paramLine (p : ProcParam) (hn : nlFree p.name = true)
    (ht : nlFree p.type = true) (hd : nlFree p.default = true) :
    nlFree (paramLine p) = true := by
  unfold paramLine
  by_cases h0 : p.default ≠ "" <;>
    simp [h0, nlFree_append, hn, ht, hd] <;> decide

theorem nlFree_tableLine (t : ParsedTable) (hn : nlFree t.name = true)
    (ha : nlFree t.alias = true) : nlFree (tableLine t) = true := by
  unfold tableLine
  by_cases h0 : t.alias ≠ "" <;> by_cases h1 : t.is_temp <;>
    simp [h0, h1, nlFree_append, hn, ha] <;> decide

theorem nlFree_selColLine (c : ParsedColumn) (ht : nlFree c.table = true)
    (hc : nlFree c.column = true) : nlFree (selColLine c) = true := by
  unfold selColLine
  by_cases h0 : c.table = "" <;> simp [h0, nlFree_append, ht, hc] <;> decide

theorem nlFree_whereLine (c : ParsedColumn) (ht : nlFree c.table = true)
    (hc : nlFree c.column = true) (hp : nlFree c.parameter = true) :
    nlFree (whereLine c) = true := by
  unfold whereLine
  by_cases h0 : c.table = "" <;> simp [h0, nlFree_append, ht, hc, hp] <;> decide

/-- Members of the WHERE-section dedup come from the original list. -/
theorem mem_dedupWhere (cols : List ParsedColumn) :
    ∀ c ∈ dedupWhere cols, c ∈ cols := by
  unfold dedupWhere
  apply foldl_preserves (fun acc : List ParsedColumn => ∀ c ∈ acc, c ∈ cols)
  · intro c hc
    cases hc
  · intro s a ha hp
    split
    · exact hp
    · intro c hc
      rcases List.mem_append.mp hc with h1 | h2
      · exact hp c h1
      · rw [List.mem_singleton] at h2
        subst h2
        exact ha

/-- Members of the per-branch dedup come from the original list. -/
theorem mem_dedupPairs (cols : List ParsedColumn) :
    ∀ c ∈ dedupPairs cols, c ∈ cols := by
  unfold dedupPairs
  apply foldl_preserves (fun acc : List ParsedColumn => ∀ c ∈ acc, c ∈ cols)
  · intro c hc
    cases hc
  · intro s a ha hp
    split
    · exact hp
    · intro c hc
      rcases List.mem_append.mp hc with h1 | h2
      · exact hp c h1
      · rw [List.mem_singleton] at h2
        subst h2
        exact ha

/-- The physical expansion of one branch's logical lines. -/
theorem mapSplit_branchLines (b : ParsedBranch) (hc : nlFree b.condition = true)
    (hcols : ∀ c ∈ b.select_columns, nlFree c.table = true ∧ nlFree c.column = true) :
    mapSplit (branchLines b) = branchPhysLines b := by
  unfold branchLines branchPhysLines
  rw [mapSplit_cons]
  have hentries : mapSplit ((dedupPairs b.select_columns).map selColLine) =
      (dedupPairs b.select_columns).map (fun c => (selColLine c).data) := by
    rw [mapSplit_of_nlFree]
    · rw [List.map_map]
      rfl
    · intro s hs
      rw [List.mem_map] at hs
      obtain ⟨c, hcm, rfl⟩ := hs
      have hmem := mem_dedupPairs b.select_columns c hcm
      exact nlFree_selColLine c (hcols c hmem).1 (hcols c hmem).2
  rw [hentries]
  by_cases h0 : b.condition ≠ ""
  · rw [if_pos h0, if_pos h0]
    have hd : ("\n**[" ++ b.condition ++ "]**").data =
        [] ++ '\n' :: ("**[" ++ b.condition ++ "]**").data := rfl
    rw [hd, splitNl_append_newline]
    rw [splitNl_of_nlFree (("**[" ++ b.condition ++ "]**").data)
      (by
        have : nlFree ("**[" ++ b.condition ++ "]**") = true := by
          simp [nlFree_append, hc]
          decide
        exact this)]
    rfl
  · rw [if_neg h0, if_neg h0]
    rw [show ("\n**[기본]**").data = [] ++ '\n' :: ("**[기본]**").data from rfl,
      splitNl_append_newline,
      splitNl_of_nlFree (("**[기본]**").data) (by decide)]
    rfl

/-- Counting the entry lines of a section: skip to the unique header
line, then count the dash lines of the body, the scan stopping at the
following section header (or the end of the document). -/
theorem sectionCount_structure (pre body rest : List (List Char)) (hdr : List Char)
    (hpre : ∀ l ∈ pre, l ≠ hdr)
    (hbody : ∀ l ∈ body, ['#', '#', '#', ' '].isPrefixOf l = false)
    (hrest : rest = [] ∨ ∃ h0 t0, rest = h0 :: t0 ∧ ['#', '#', '#', ' '].isPrefixOf h0 = true) :
    ((sectionBody (pre ++ hdr :: (body ++ rest)) hdr).filter
      (fun l => ['-', ' '].isPrefixOf l)).length =
    (body.filter (fun l => ['-', ' '].isPrefixOf l)).length := by
  rw [sectionBody_append_of_ne pre _ hdr hpre, sectionBody_cons_self,
    takeWhile_append_of_all _ body rest (fun l hl => by simp [hbody l hl])]
  rcases hrest with rfl | ⟨h0, t0, rfl, hh⟩
  · simp
  · rw [List.takeWhile_cons_of_neg (by simp [hh]), List.append_nil]

theorem sectionCount_absent (ls : List (List Char)) (hdr : List Char)
    (h : ∀ l ∈ ls, l ≠ hdr) :
    ((sectionBody ls hdr).filter (fun l => ['-', ' '].isPrefixOf l)).length = 0 := by
  rw [sectionBody_of_ne ls hdr h]
  rfl

/-- The kept table entries form a subsequence of the input. -/
theorem uniqueTables_sublist (ts : List ParsedTable) : (uniqueTables ts).Sublist ts := by
  obtain ⟨l', he, hsub, _, _, _⟩ := uniqueTables_go_spec ts [] (by simp)
  unfold uniqueTables
  rw [he]
  simpa using hsub

theorem mapSplit_flatten (LL : List (List String)) :
    mapSplit LL.flatten = (LL.map mapSplit).flatten := by
  induction LL with
  | nil => rfl
  | cons L LS ih => rw [List.flatten_cons, mapSplit_append, ih, List.map_cons, List.flatten_cons]

/-- The physical document is the concatenation of the section
expansions. -/
theorem structuredLines_decomp (r : ParseResult)
    (hpn : nlFree r.procedure_name = true)
    (hpar : ∀ p ∈ r.parameters,
      (nlFree p.name = true ∧ nlFree p.type = true) ∧ nlFree p.default = true)
    (htab : ∀ t ∈ r.all_tables, nlFree t.name = true ∧ nlFree t.alias = true)
    (hbr : ∀ b ∈ r.branches, nlFree b.condition = true ∧
      ∀ c ∈ b.select_columns, nlFree c.table = true ∧ nlFree c.column = true)
    (hwh : ∀ c ∈ r.all_where_columns,
      (nlFree c.table = true ∧ nlFree c.column = true) ∧ nlFree c.parameter = true) :
    mapSplit (structuredLines r) =
      preA ++ preB r ++ preC r ++ secD r ++ secE r ++ secF r := by
  have eA : mapSplit ["## SQL 파서 전처리 결과", ""] = preA := by decide
  have eB : mapSplit (if r.procedure_name ≠ "" then
      ["### 프로시저명: " ++ r.procedure_name, ""] else []) = preB r := by
    unfold preB
    by_cases hp : r.procedure_name ≠ ""
    · rw [if_pos hp, if_pos hp, mapSplit_of_nlFree]
      · rfl
      · intro x hx
        rcases List.mem_cons.mp hx with rfl | hx2
        · simp [nlFree_append, hpn]
          decide
        · rw [List.mem_singleton] at hx2
          subst hx2
          decide
    · rw [if_neg hp, if_neg hp]
      rfl
  have eC : mapSplit (if r.parameters ≠ [] then
      ("### 파라미터" :: r.parameters.map paramLine) ++ [""] else []) = preC r := by
    unfold preC
    by_cases hp : r.parameters ≠ []
    · rw [if_pos hp, if_pos hp, mapSplit_of_nlFree]
      · simp [List.map_map]
      · intro x hx
        simp only [List.mem_append, List.mem_cons, List.mem_map, List.mem_singleton,
          List.not_mem_nil, or_false] at hx
        rcases hx with (rfl | ⟨p, hp2, rfl⟩) | rfl
        · decide
        · obtain ⟨⟨h1, h2⟩, h3⟩ := hpar p hp2
          exact nlFree_paramLine p h1 h2 h3
        · decide
    · rw [if_neg hp, if_neg hp]
      rfl
  have eD : mapSplit (if uniqueTables r.all_tables ≠ [] then
      ("### 사용 테이블" :: (uniqueTables r.all_tables).map tableLine) ++ [""] else []) =
      secD r := by
    unfold secD
    by_cases hp : uniqueTables r.all_tables ≠ []
    · rw [if_pos hp, if_pos hp, mapSplit_of_nlFree]
      · simp [List.map_map]
      · intro x hx
        simp only [List.mem_append, List.mem_cons, List.mem_map, List.mem_singleton,
          List.not_mem_nil, or_false] at hx
        rcases hx with (rfl | ⟨t, ht2, rfl⟩) | rfl
        · decide
        · have htm : t ∈ r.all_tables := (uniqueTables_sublist r.all_tables).mem ht2
          exact nlFree_tableLine t (htab t htm).1 (htab t htm).2
        · decide
    · rw [if_neg hp, if_neg hp]
      rfl
  have eE : mapSplit (if r.branches ≠ [] then
      ("### 분기별 출력 컬럼 (SELECT)" :: (r.branches.map branchLines).flatten) ++ [""]
      else []) = secE r := by
    unfold secE
    by_cases hp : r.branches ≠ []
    · rw [if_pos hp, if_pos hp, mapSplit_append, mapSplit_cons, mapSplit_flatten,
        List.map_map]
      have hmap : r.branches.map (mapSplit ∘ branchLines) = r.branches.map branchPhysLines :=
        List.map_congr_left (fun b hb =>
          mapSplit_branchLines b (hbr b hb).1 (hbr b hb).2)
      rw [hmap]
      rw [show splitNl ("### 분기별 출력 컬럼 (SELECT)").data =
        [("### 분기별 출력 컬럼 (SELECT)").data] from by decide]
      rw [show mapSplit [""] = [[]] from by decide]
      simp
    · rw [if_neg hp, if_neg hp]
      rfl
  have eF : mapSplit (if r.all_where_columns.filter (fun c => c.parameter ≠ "") ≠ [] then
      ("### 입력 컬럼 (WHERE 조건)" ::
        (dedupWhere (r.all_where_columns.filter (fun c => c.parameter ≠ ""))).map whereLine) ++
        [""] else []) = secF r := by
    unfold secF
    by_cases hp : r.all_where_columns.filter (fun c => c.parameter ≠ "") ≠ []
    · rw [if_pos hp, if_pos hp, mapSplit_append, mapSplit_cons]
      rw [show splitNl ("### 입력 컬럼 (WHERE 조건)").data =
        [("### 입력 컬럼 (WHERE 조건)").data] from by decide]
      rw [show mapSplit [""] = [[]] from by decide]
      rw [mapSplit_of_nlFree]
      · simp [List.map_map]
      · intro x hx
        simp only [List.mem_map] at hx
        obtain ⟨c, hc2, rfl⟩ := hx
        have hcm : c ∈ r.all_where_columns :=
          List.mem_of_mem_filter (mem_dedupWhere _ c hc2)
        exact nlFree_whereLine c (hwh c hcm).1.1 (hwh c hcm).1.2 (hwh c hcm).2
    · rw [if_neg hp, if_neg hp]
      rfl
  unfold structuredLines
  simp only [mapSplit_append]
  rw [eA, eB, eC, eD, eE, eF]

theorem branchHdr_head (b : ParsedBranch) :
    ∃ rest, ((if b.condition ≠ "" then "**[" ++ b.condition ++ "]**" else
      "**[기본]**").data) = '*' :: rest := by
  by_cases h : b.condition ≠ ""
  · rw [if_pos h]
    exact ⟨_, rfl⟩
  · rw [if_neg h]
    exact ⟨_, rfl⟩

theorem preA_ne (t : List Char) (ht : t.take 1 = ['#'])
    (h1 : "## SQL 파서 전처리 결과".data ≠ t) : ∀ l ∈ preA, l ≠ t := by
  intro l hl
  simp only [preA, List.mem_cons, List.not_mem_nil, or_false] at hl
  rcases hl with rfl | rfl
  · exact h1
  · exact nil_ne_hashHead ht

theorem preB_ne (r : ParseResult) (t : List Char) (ht : t.take 1 = ['#'])
    (h1 : ∀ x : String, ("### 프로시저명: " ++ x).data ≠ t) : ∀ l ∈ preB r, l ≠ t := by
  intro l hl
  unfold preB at hl
  split at hl
  · simp only [List.mem_cons, List.not_mem_nil, or_false] at hl
    rcases hl with rfl | rfl
    · exact h1 _
    · exact nil_ne_hashHead ht
  · cases hl

theorem preC_ne (r : ParseResult) (t : List Char) (ht : t.take 1 = ['#'])
    (h1 : "### 파라미터".data ≠ t) : ∀ l ∈ preC r, l ≠ t := by
  intro l hl
  unfold preC at hl
  split at hl
  · simp only [List.mem_append, List.mem_cons, List.mem_map, List.not_mem_nil,
      or_false] at hl
    rcases hl with (rfl | ⟨p, _, rfl⟩) | rfl
    · exact h1
    · exact dashHead_ne_hashHead (paramLine_head p) ht
    · exact nil_ne_hashHead ht
  · cases hl

theorem secD_ne (r : ParseResult) (t : List Char) (ht : t.take 1 = ['#'])
    (h1 : "### 사용 테이블".data ≠ t) : ∀ l ∈ secD r, l ≠ t := by
  intro l hl
  unfold secD at hl
  split at hl
  · simp only [List.mem_append, List.mem_cons, List.mem_map, List.not_mem_nil,
      or_false] at hl
    rcases hl with (rfl | ⟨u, _, rfl⟩) | rfl
    · exact h1
    · exact dashHead_ne_hashHead (tableLine_head u) ht
    · exact nil_ne_hashHead ht
  · cases hl

theorem branchPhysLines_ne (b : ParsedBranch) (t : List Char) (ht : t.take 1 = ['#']) :
    ∀ l ∈ branchPhysLines b, l ≠ t := by
  intro l hl
  unfold branchPhysLines at hl
  simp only [List.mem_append, List.mem_cons, List.mem_map, List.not_mem_nil,
    or_false] at hl
  rcases hl with (rfl | rfl) | ⟨c, _, rfl⟩
  · exact nil_ne_hashHead ht
  · exact starHead_ne_hashHead (branchHdr_head b) ht
  · exact dashHead_ne_hashHead (selColLine_head c) ht

theorem secE_ne (r : ParseResult) (t : List Char) (ht : t.take 1 = ['#'])
    (h1 : "### 분기별 출력 컬럼 (SELECT)".data ≠ t) : ∀ l ∈ secE r, l ≠ t := by
  intro l hl
  unfold secE at hl
  split at hl
  · simp only [List.mem_append, List.mem_cons, List.mem_flatten, List.mem_map,
      List.not_mem_nil, or_false] at hl
    rcases hl with (rfl | ⟨ls, ⟨b, _, rfl⟩, hls⟩) | rfl
    · exact h1
    · exact branchPhysLines_ne b t ht l hls
    · exact nil_ne_hashHead ht
  · cases hl

theorem secF_ne (r : ParseResult) (t : List Char) (ht : t.take 1 = ['#'])
    (h1 : "### 입력 컬럼 (WHERE 조건)".data ≠ t) : ∀ l ∈ secF r, l ≠ t := by
  intro l hl
  unfold secF at hl
  split at hl
  · simp only [List.mem_append, List.mem_cons, List.mem_map, List.not_mem_nil,
      or_false] at hl
    rcases hl with (rfl | ⟨c, _, rfl⟩) | rfl
    · exact h1
    · exact dashHead_ne_hashHead (whereLine_head c) ht
    · exact nil_ne_hashHead ht
  · cases hl

theorem count_tableBody (r : ParseResult) :
    (((uniqueTables r.all_tables).map (fun t => (tableLine t).data) ++ [[]]).filter
      (fun l => ['-', ' '].isPrefixOf l)).length = (uniqueTables r.all_tables).length := by
  rw [List.filter_append]
  have h1 : ((uniqueTables r.all_tables).map (fun t => (tableLine t).data)).filter
      (fun l => ['-', ' '].isPrefixOf l) =
      (uniqueTables r.all_tables).map (fun t => (tableLine t).data) := by
    rw [List.filter_eq_self]
    intro a ha
    rw [List.mem_map] at ha
    obtain ⟨u, _, rfl⟩ := ha
    obtain ⟨rest, he⟩ := tableLine_head u
    rw [he]
    exact isDash_cons rest
  rw [h1, show List.filter (fun l => ['-', ' '].isPrefixOf l) [([] : List Char)] = []
    from rfl]
  simp

theorem count_branchPhys (b : ParsedBranch) :
    ((branchPhysLines b).filter (fun l => ['-', ' '].isPrefixOf l)).length =
      (dedupPairs b.select_columns).length := by
  unfold branchPhysLines
  rw [List.filter_append]
  obtain ⟨rest, he⟩ := branchHdr_head b
  have h0 : List.filter (fun l => ['-', ' '].isPrefixOf l)
      [[], (if b.condition ≠ "" then "**[" ++ b.condition ++ "]**" else
        "**[기본]**").data] = [] := by
    rw [he]
    simp [List.filter, notDash_cons_star]
  have h1 : ((dedupPairs b.select_columns).map (fun c => (selColLine c).data)).filter
      (fun l => ['-', ' '].isPrefixOf l) =
      (dedupPairs b.select_columns).map (fun c => (selColLine c).data) := by
    rw [List.filter_eq_self]
    intro a ha
    rw [List.mem_map] at ha
    obtain ⟨c, _, rfl⟩ := ha
    obtain ⟨r0, he0⟩ := selColLine_head c
    rw [he0]
    exact isDash_cons r0
  rw [h0, h1]
  simp

theorem count_selectBody (r : ParseResult) :
    (((r.branches.map branchPhysLines).flatten ++ [[]]).filter
      (fun l => ['-', ' '].isPrefixOf l)).length =
      (r.branches.map (fun b => (dedupPairs b.select_columns).length)).sum := by
  rw [List.filter_append, List.length_append, length_filter_flatten,
    show List.filter (fun l => ['-', ' '].isPrefixOf l) [([] : List Char)] = []
      from rfl]
  simp only [List.length_nil, Nat.add_zero, List.map_map]
  congr 1
  apply List.map_congr_left
  intro b _
  exact count_branchPhys b

theorem rescanTable_eq (r : ParseResult)
    (hpn : nlFree r.procedure_name = true)
    (hpar : ∀ p ∈ r.parameters,
      (nlFree p.name = true ∧ nlFree p.type = true) ∧ nlFree p.default = true)
    (htab : ∀ t ∈ r.all_tables, nlFree t.name = true ∧ nlFree t.alias = true)
    (hbr : ∀ b ∈ r.branches, nlFree b.condition = true ∧
      ∀ c ∈ b.select_columns, nlFree c.table = true ∧ nlFree c.column = true)
    (hwh : ∀ c ∈ r.all_where_columns,
      (nlFree c.table = true ∧ nlFree c.column = true) ∧ nlFree c.parameter = true) :
    rescanTableCount (toStructuredText r) = (uniqueTables r.all_tables).length := by
  unfold rescanTableCount sectionEntryCount
  rw [splitNl_toStructuredText, structuredLines_decomp r hpn hpar htab hbr hwh]
  have hpre : ∀ l ∈ preA ++ preB r ++ preC r, l ≠ ("### 사용 테이블").data := by
    intro l hl
    rcases List.mem_append.mp hl with h12 | h3
    · rcases List.mem_append.mp h12 with h1 | h2
      · exact preA_ne _ (by decide) (by decide) l h1
      · exact preB_ne r _ (by decide)
          (fun x => take_based_ne "### 프로시저명: " x _ 5 (by decide) (by decide)) l h2
    · exact preC_ne r _ (by decide) (by decide) l h3
  by_cases hD : uniqueTables r.all_tables ≠ []
  · have hshape : preA ++ preB r ++ preC r ++ secD r ++ secE r ++ secF r =
        (preA ++ preB r ++ preC r) ++ ("### 사용 테이블".data ::
          (((uniqueTables r.all_tables).map (fun t => (tableLine t).data) ++ [[]]) ++
            (secE r ++ secF r))) := by
      unfold secD
      rw [if_pos hD]
      simp [List.append_assoc]
    rw [hshape, sectionCount_structure]
    · exact count_tableBody r
    · exact hpre
    · intro l hl
      rcases List.mem_append.mp hl with h1 | h2
      · rw [List.mem_map] at h1
        obtain ⟨u, _, rfl⟩ := h1
        obtain ⟨rest, he⟩ := tableLine_head u
        rw [he]
        exact notHdr_cons_dash _
      · rw [List.mem_singleton] at h2
        subst h2
        exact notHdr_nil
    · by_cases hE : r.branches ≠ []
      · right
        refine ⟨"### 분기별 출력 컬럼 (SELECT)".data,
          ((r.branches.map branchPhysLines).flatten ++ [[]]) ++ secF r, ?_, by decide⟩
        unfold secE
        rw [if_pos hE]
        simp [List.append_assoc]
      · by_cases hF : r.all_where_columns.filter (fun c => c.parameter ≠ "") ≠ []
        · right
          refine ⟨"### 입력 컬럼 (WHERE 조건)".data,
            (dedupWhere (r.all_where_columns.filter (fun c => c.parameter ≠ ""))).map
              (fun c => (whereLine c).data) ++ [[]], ?_, by decide⟩
          unfold secE secF
          rw [if_neg hE, if_pos hF]
          simp [List.append_assoc]
        · left
          unfold secE secF
          rw [if_neg hE, if_neg hF]
          rfl
  · rw [ne_eq, not_not] at hD
    rw [sectionCount_absent]
    · rw [hD]
      rfl
    · intro l hl
      rcases List.mem_append.mp hl with h15 | h6
      · rcases List.mem_append.mp h15 with h14 | h5
        · rcases List.mem_append.mp h14 with h13 | h4
          · exact hpre l h13
          · exact absurd h4 (by
              unfold secD
              rw [if_neg (by simp [hD])]
              simp)
        · exact secE_ne r _ (by decide) (by decide) l h5
      · exact secF_ne r _ (by decide) (by decide) l h6

theorem rescanSelect_eq (r : ParseResult)
    (hpn : nlFree r.procedure_name = true)
    (hpar : ∀ p ∈ r.parameters,
      (nlFree p.name = true ∧ nlFree p.type = true) ∧ nlFree p.default = true)
    (htab : ∀ t ∈ r.all_tables, nlFree t.name = true ∧ nlFree t.alias = true)
    (hbr : ∀ b ∈ r.branches, nlFree b.condition = true ∧
      ∀ c ∈ b.select_columns, nlFree c.table = true ∧ nlFree c.column = true)
    (hwh : ∀ c ∈ r.all_where_columns,
      (nlFree c.table = true ∧ nlFree c.column = true) ∧ nlFree c.parameter = true) :
    rescanSelectCount (toStructuredText r) =
      (r.branches.map (fun b => (dedupPairs b.select_columns).length)).sum := by
  unfold rescanSelectCount sectionEntryCount
  rw [splitNl_toStructuredText, structuredLines_decomp r hpn hpar htab hbr hwh]
  have hpre : ∀ l ∈ preA ++ preB r ++ preC r ++ secD r,
      l ≠ ("### 분기별 출력 컬럼 (SELECT)").data := by
    intro l hl
    rcases List.mem_append.mp hl with h13 | h4
    · rcases List.mem_append.mp h13 with h12 | h3
      · rcases List.mem_append.mp h12 with h1 | h2
        · exact preA_ne _ (by decide) (by decide) l h1
        · exact preB_ne r _ (by decide)
            (fun x => take_based_ne "### 프로시저명: " x _ 5 (by decide) (by decide)) l h2
      · exact preC_ne r _ (by decide) (by decide) l h3
    · exact secD_ne r _ (by decide) (by decide) l h4
  by_cases hE : r.branches ≠ []
  · have hshape : preA ++ preB r ++ preC r ++ secD r ++ secE r ++ secF r =
        (preA ++ preB r ++ preC r ++ secD r) ++ ("### 분기별 출력 컬럼 (SELECT)".data ::
          (((r.branches.map branchPhysLines).flatten ++ [[]]) ++ secF r)) := by
      unfold secE
      rw [if_pos hE]
      simp [List.append_assoc]
    rw [hshape, sectionCount_structure]
    · exact count_selectBody r
    · exact hpre
    · intro l hl
      rcases List.mem_append.mp hl with h1 | h2
      · rw [List.mem_flatten] at h1
        obtain ⟨ls, hls, hmem⟩ := h1
        rw [List.mem_map] at hls
        obtain ⟨b, _, rfl⟩ := hls
        -- every branch physical line is nil-, star- or dash-headed
        unfold branchPhysLines at hmem
        simp only [List.mem_append, List.mem_cons, List.mem_map, List.not_mem_nil,
          or_false] at hmem
        rcases hmem with (rfl | rfl) | ⟨c, _, rfl⟩
        · exact notHdr_nil
        · obtain ⟨rest, he⟩ := branchHdr_head b
          rw [he]
          exact notHdr_cons_star _
        · obtain ⟨rest, he⟩ := selColLine_head c
          rw [he]
          exact notHdr_cons_dash _
      · rw [List.mem_singleton] at h2
        subst h2
        exact notHdr_nil
    · by_cases hF : r.all_where_columns.filter (fun c => c.parameter ≠ "") ≠ []
      · right
        refine ⟨"### 입력 컬럼 (WHERE 조건)".data,
          (dedupWhere (r.all_where_columns.filter (fun c => c.parameter ≠ ""))).map
            (fun c => (whereLine c).data) ++ [[]], ?_, by decide⟩
        unfold secF
        rw [if_pos hF]
        simp [List.append_assoc]
      · left
        unfold secF
        rw [if_neg hF]
  · rw [ne_eq, not_not] at hE
    rw [sectionCount_absent]
    · rw [hE]
      rfl
    · intro l hl
      rcases List.mem_append.mp hl with h15 | h6
      · rcases List.mem_append.mp h15 with h14 | h5
        · exact hpre l h14
        · exact absurd h5 (by
            unfold secE
            rw [if_neg (by simp [hE])]
            simp)
      · exact secF_ne r _ (by decide) (by decide) l h6

theorem scanPairs_nil : scanPairs [] = [] := by
  rw [scanPairs]

theorem scanPairs_cons_none {c : Char} {t : List Char}
    (h : matchPairAt (c :: t) = none) : scanPairs (c :: t) = scanPairs t := by
  rw [scanPairs]
  split
  next tb cl rest h' => rw [h] at h'; exact absurd h' (by simp)
  · rfl

theorem scanPairs_cons_some {c : Char} {t tb cl rest : List Char}
    (h : matchPairAt (c :: t) = some (tb, cl, rest)) :
    scanPairs (c :: t) = (tb, cl) :: scanPairs rest := by
  rw [scanPairs]
  split
  next tb' cl' rest' h' =>
    rw [h] at h'
    simp only [Option.some.injEq, Prod.mk.injEq] at h'
    obtain ⟨h1, h2, h3⟩ := h'
    subst h1 h2 h3
    rfl
  next h' => rw [h] at h'; exact absurd h' (by simp)

theorem scanTables_nil : scanTables [] = [] := by
  rw [scanTables]

theorem scanTables_cons_none {c : Char} {t : List Char}
    (h : matchTableAt (c :: t) = none) : scanTables (c :: t) = scanTables t := by
  rw [scanTables]
  split
  next n a rest h' => rw [h] at h'; exact absurd h' (by simp)
  · rfl

theorem scanTables_cons_some {c : Char} {t n a rest : List Char}
    (h : matchTableAt (c :: t) = some (n, a, rest)) :
    scanTables (c :: t) = (n, a) :: scanTables rest := by
  rw [scanTables]
  split
  next n' a' rest' h' =>
    rw [h] at h'
    simp only [Option.some.injEq, Prod.mk.injEq] at h'
    obtain ⟨h1, h2, h3⟩ := h'
    subst h1 h2 h3
    rfl
  next h' => rw [h] at h'; exact absurd h' (by simp)

theorem dropWhile_append_of_all {α : Type _} (p : α → Bool) (l1 l2 : List α)
    (h : ∀ x ∈ l1, p x = true) : (l1 ++ l2).dropWhile p = l2.dropWhile p := by
  induction l1 with
  | nil => rfl
  | cons a l ih =>
    rw [List.cons_append, List.dropWhile_cons_of_pos (h a (by simp))]
    exact ih (fun x hx => h x (by simp [hx]))

/-- `\w+` on a word run followed by a word boundary takes exactly the
run. -/
theorem takeWord_run {w rest : List Char} (hne : w ≠ [])
    (hw : ∀ c ∈ w, wordCh c = true)
    (hrest : rest = [] ∨ ∃ c t, rest = c :: t ∧ wordCh c = false) :
    takeWord (w ++ rest) = some (w, rest) := by
  have htk : (w ++ rest).takeWhile wordCh = w := by
    rw [takeWhile_append_of_all _ w rest hw]
    rcases hrest with rfl | ⟨c, t, rfl, hc⟩
    · simp
    · rw [List.takeWhile_cons_of_neg (by simp [hc]), List.append_nil]
  have hdr : (w ++ rest).dropWhile wordCh = rest := by
    rw [dropWhile_append_of_all _ w rest hw]
    rcases hrest with rfl | ⟨c, t, rfl, hc⟩
    · rfl
    · rw [List.dropWhile_cons_of_neg (by simp [hc])]
  unfold takeWord
  rw [htk, hdr]
  rw [if_neg (by simp [hne])]

/-- The dotted-pair pattern matches a rendered `t.c` reference exactly. -/
theorem matchPairAt_pair (t c : String) (rest : List Char)
    (ht : okWord t = true) (hc : okWord c = true ∨ c = "*")
    (hrest : rest = [] ∨ ∃ c0 t0, rest = c0 :: t0 ∧ wordCh c0 = false) :
    matchPairAt (t.data ++ '.' :: c.data ++ rest) = some (t.data, c.data, rest) := by
  unfold okWord at ht
  rw [Bool.and_eq_true] at ht
  have ht1 : t.data ≠ [] := by
    intro he
    rw [he] at ht
    simp at ht
  have ht2 : ∀ x ∈ t.data, wordCh x = true := by
    have := ht.2
    rw [List.all_eq_true] at this
    exact this
  have h1 : takeWord (t.data ++ '.' :: (c.data ++ rest)) =
      some (t.data, '.' :: (c.data ++ rest)) :=
    takeWord_run ht1 ht2 (Or.inr ⟨'.', c.data ++ rest, rfl, by decide⟩)
  unfold matchPairAt
  rw [show t.data ++ '.' :: c.data ++ rest = t.data ++ '.' :: (c.data ++ rest) from by
    simp, h1]
  dsimp only
  rcases hc with hcw | hcs
  · unfold okWord at hcw
    rw [Bool.and_eq_true] at hcw
    have hc1 : c.data ≠ [] := by
      intro he
      rw [he] at hcw
      simp at hcw
    have hc2 : ∀ x ∈ c.data, wordCh x = true := by
      have := hcw.2
      rw [List.all_eq_true] at this
      exact this
    rw [takeWord_run hc1 hc2 hrest]
    simp
  · subst hcs
    have hnw : takeWord ('*' :: rest) = none := by
      unfold takeWord
      rw [List.takeWhile_cons_of_neg (by decide)]
      rfl
    simp only [show ("*" : String).data = ['*'] from rfl, List.cons_append,
      List.nil_append] at *
    simp [hnw]

/-- The pair pattern never matches at a non-word character. -/
theorem matchPairAt_nonword {c : Char} (cs : List Char) (h : wordCh c = false) :
    matchPairAt (c :: cs) = none := by
  unfold matchPairAt takeWord
  rw [List.takeWhile_cons_of_neg (by simp [h])]
  rfl

theorem scanPairs_of_match {cs tb cl rest : List Char} (hcs : cs ≠ [])
    (h : matchPairAt cs = some (tb, cl, rest)) :
    scanPairs cs = (tb, cl) :: scanPairs rest := by
  cases cs with
  | nil => exact absurd rfl hcs
  | cons c t => exact scanPairs_cons_some h

/-- The leftmost scan of a rendered dotted-pair list recovers exactly the
pairs. -/
theorem scanPairs_render : ∀ (prs : List (String × String)),
    (∀ p ∈ prs, okWord p.1 = true ∧ (okWord p.2 = true ∨ p.2 = "*")) →
    scanPairs (renderPairs prs) = prs.map (fun p => (p.1.data, p.2.data))
  | [], _ => scanPairs_nil
  | [p], h => by
    have hp := h p (by simp)
    rw [show renderPairs [p] = p.1.data ++ '.' :: p.2.data from rfl]
    rw [show p.1.data ++ '.' :: p.2.data = p.1.data ++ '.' :: p.2.data ++ [] from by simp]
    rw [scanPairs_of_match ?_ (matchPairAt_pair p.1 p.2 [] hp.1 hp.2 (Or.inl rfl))]
    · rw [scanPairs_nil]
      rfl
    · intro he
      have hok : okWord p.1 = true := hp.1
      unfold okWord at hok
      rw [Bool.and_eq_true] at hok
      have h1 := hok.1
      cases hd : p.1.data with
      | nil => rw [hd] at h1; simp at h1
      | cons x xs => rw [hd] at he; simp at he
  | p :: q :: rest, h => by
    have hp := h p (by simp)
    rw [show renderPairs (p :: q :: rest) =
      p.1.data ++ '.' :: p.2.data ++ ',' :: ' ' :: renderPairs (q :: rest) from rfl]
    rw [show p.1.data ++ '.' :: p.2.data ++ ',' :: ' ' :: renderPairs (q :: rest) =
      p.1.data ++ '.' :: p.2.data ++ (',' :: ' ' :: renderPairs (q :: rest)) from by simp]
    rw [scanPairs_of_match ?_ (matchPairAt_pair p.1 p.2 (',' :: ' ' :: renderPairs (q :: rest))
      hp.1 hp.2 (Or.inr ⟨',', _, rfl, by decide⟩))]
    · rw [scanPairs_cons_none (matchPairAt_nonword _ (by decide)),
        scanPairs_cons_none (matchPairAt_nonword _ (by decide)),
        scanPairs_render (q :: rest) (fun x hx => h x (by simp [hx]))]
      rfl
    · intro he
      have hok : okWord p.1 = true := hp.1
      unfold okWord at hok
      rw [Bool.and_eq_true] at hok
      have h1 := hok.1
      cases hd : p.1.data with
      | nil => rw [hd] at h1; simp at h1
      | cons x xs => rw [hd] at he; simp at he

/-- The grammar strategy on a flat select of plain (possibly starred)
column references emits one entry per reference. -/
theorem ast_select_flat (am : AliasMap) (prs : List (String × String))
    (d n a : String) (branch : String) :
    extractSelectColumnsFromAst am (Query.select
      (prs.map (fun p => if p.2 = "*" then Expr.star p.1 else Expr.column p.1 p.2))
      [.tbl d n a] none) branch =
    prs.map (fun p => { table := amResolve am p.1, column := p.2,
                        is_select := true, branch := branch }) := by
  unfold extractSelectColumnsFromAst
  rw [show selectsOfQuery (Query.select
      (prs.map (fun p => if p.2 = "*" then Expr.star p.1 else Expr.column p.1 p.2))
      [.tbl d n a] none) = [Query.select
      (prs.map (fun p => if p.2 = "*" then Expr.star p.1 else Expr.column p.1 p.2))
      [.tbl d n a] none] from rfl]
  simp only [List.map_cons, List.map_nil, List.flatten_cons, List.flatten_nil,
    List.append_nil]
  induction prs with
  | nil => rfl
  | cons p ps ih =>
    simp only [List.map_cons, List.flatten_cons]
    rw [ih]
    by_cases h2 : p.2 = "*"
    · rw [if_pos h2]
      unfold extractColumnRefs
      rw [h2]
      rfl
    · rw [if_neg h2]
      unfold extractColumnRefs
      rfl

theorem splitBranches_of_segs_ne {sql : String} (h : (splitGuards sql.data).2 ≠ []) :
    splitBranches sql = (splitGuards sql.data).2.map
      (fun s => (String.mk s.1.1 ++ " = '" ++ String.mk s.1.2.1 ++ "'", String.mk s.2)) := by
  unfold splitBranches
  rw [if_neg]
  simpa using h

/-- The four aggregate fields of the `parse` fold depend only on the
branch list and the threaded alias map, never on the initial
`procedure_name`/`parameters` (nor on the pre-guard text, which is not in
the branch list). -/
theorem parseFold_fields_congr (po : String → Except String Query)
    (bs : List (String × String)) :
    ∀ (r1 r2 : ParseResult) (am : AliasMap),
      r1.branches = r2.branches → r1.all_tables = r2.all_tables →
      r1.all_select_columns = r2.all_select_columns →
      r1.all_where_columns = r2.all_where_columns →
      (bs.foldl (parseFoldStep po) (r1, am)).1.branches =
        (bs.foldl (parseFoldStep po) (r2, am)).1.branches ∧
      (bs.foldl (parseFoldStep po) (r1, am)).1.all_tables =
        (bs.foldl (parseFoldStep po) (r2, am)).1.all_tables ∧
      (bs.foldl (parseFoldStep po) (r1, am)).1.all_select_columns =
        (bs.foldl (parseFoldStep po) (r2, am)).1.all_select_columns ∧
      (bs.foldl (parseFoldStep po) (r1, am)).1.all_where_columns =
        (bs.foldl (parseFoldStep po) (r2, am)).1.all_where_columns ∧
      (bs.foldl (parseFoldStep po) (r1, am)).2 = (bs.foldl (parseFoldStep po) (r2, am)).2 := by
  induction bs with
  | nil => intro r1 r2 am h1 h2 h3 h4; exact ⟨h1, h2, h3, h4, rfl⟩
  | cons cb rest ih =>
    intro r1 r2 am h1 h2 h3 h4
    simp only [List.foldl_cons]
    exact ih _ _ _ (by simp [parseFoldStep, h1]) (by simp [parseFoldStep, h2])
      (by simp [parseFoldStep, h3]) (by simp [parseFoldStep, h4])

/-! ## Claims -/

/-- C8: for every input text containing no occurrence of the
`IF <param> = <literal>` guard pattern (no match of the split pattern
anywhere in the text), `_split_branches` returns exactly one branch whose
condition is empty and whose body is the entire input text. -/
theorem c8_no_guard_single_branch (sql : String)
    (h : findGuard sql.data = none) : splitBranches sql = [("", sql)] := by
  unfold splitBranches
  rw [splitGuards_eq_none h]
  rfl

theorem c8_witness :
    findGuard ("SELECT * FROM T WHERE x = 1").data = none ∧
      splitBranches "SELECT * FROM T WHERE x = 1" = [("", "SELECT * FROM T WHERE x = 1")] :=
  ⟨by decide, c8_no_guard_single_branch "SELECT * FROM T WHERE x = 1" (by decide)⟩

/-- C5: the full parse never raises: with the `sqlglot` grammar parser
modelled as an arbitrary oracle that may raise (`Except.error`) on any
statement, `parse` — procedure-name and parameter extraction, branch
splitting, and both extraction strategies — always returns `Except.ok` of
a `ParseResult`: every grammar-parse exception is absorbed by the
regex-fallback handler and no exception surfaces to the caller. -/
theorem c5_parse_never_raises (po : String → Except String Query) (sql : String) :
    parseE po sql = Except.ok (parse po sql) := by
  unfold parseE parse
  have hstep : ∀ (b : ParseResult × AliasMap) (cb : String × String),
      (fun acc cb => do
        let bm ← parseBranchE po acc.2 cb.1 cb.2
        pure ({ acc.1 with
            branches := acc.1.branches ++ [bm.1]
            all_tables := acc.1.all_tables ++ bm.1.tables
            all_select_columns := acc.1.all_select_columns ++ bm.1.select_columns
            all_where_columns := acc.1.all_where_columns ++ bm.1.where_columns }, bm.2)) b cb
      = Except.ok (parseFoldStep po b cb) := by
    intro b cb
    show (parseBranchE po b.2 cb.1 cb.2).bind _ = _
    rw [parseBranchE_ok]
    rfl
  simp only [foldlM_except_ok (splitBranches sql) (parseFoldStep po) _ hstep]
  rfl

/-- C3 counterexample input: a single top-level `IF @G = '1'` guard whose
body contains a nested `IF @H = '2'` guard inside a `BEGIN … END` block. -/
def c3Input : String := "IF @G = '1' BEGIN IF @H = '2' SELECT 1 END"

/-- C3 counterexample: the claim says a nested `IF <param> = <literal>`
guard does not start a new branch (so `c3Input` would have to yield one
branch containing the whole nested block); the splitter in fact matches
the pattern purely textually and the nested guard starts a second branch,
truncating the first branch's body at the nested `IF`. -/
theorem c3_counterexample :
    splitBranches c3Input = [("@G = '1'", " BEGIN "), ("@H = '2'", " SELECT 1 END")] ∧
      (splitBranches c3Input).length ≠ 1 := by
  have h1 : findGuard c3Input.data =
      some ([], "@G".data, "1".data, "IF @G = '1'".data,
        " BEGIN IF @H = '2' SELECT 1 END".data) := by rfl
  have h2 : findGuard " BEGIN IF @H = '2' SELECT 1 END".data =
      some (" BEGIN ".data, "@H".data, "2".data, "IF @H = '2'".data,
        " SELECT 1 END".data) := by rfl
  have h3 : findGuard " SELECT 1 END".data = none := by rfl
  have e1 : splitGuards c3Input.data =
      ([], [(("@G".data, "1".data, "IF @G = '1'".data), " BEGIN ".data),
            (("@H".data, "2".data, "IF @H = '2'".data), " SELECT 1 END".data)]) := by
    rw [splitGuards_eq_some h1, splitGuards_eq_some h2, splitGuards_eq_none h3]
  have hsb : splitBranches c3Input =
      [("@G = '1'", " BEGIN "), ("@H = '2'", " SELECT 1 END")] := by
    unfold splitBranches
    rw [e1]
    decide
  exact ⟨hsb, by rw [hsb]; decide⟩

/-- C3 (amended): branch-guard recognition is purely textual, with no
notion of syntactic nesting: the branches are exactly the leftmost
non-overlapping matches of the guard pattern anywhere in the text
(including inside nested blocks), each with body running to the next
match or the end of text; the matched guard texts and bodies partition
the input after the dropped prefix, and each recorded guard is a real
match of the pattern with the recorded parameter and value as its capture
groups. -/
theorem c3_textual_guard_split (sql : String)
    (h : (splitGuards sql.data).2 ≠ []) :
    splitBranches sql = (splitGuards sql.data).2.map
      (fun s => (String.mk s.1.1 ++ " = '" ++ String.mk s.1.2.1 ++ "'", String.mk s.2)) ∧
    sql.data = (splitGuards sql.data).1 ++
      ((splitGuards sql.data).2.map (fun s => s.1.2.2 ++ s.2)).flatten ∧
    (∀ s ∈ (splitGuards sql.data).2,
      ∃ rest, matchGuardAt (s.1.2.2 ++ rest) = some (s.1.1, s.1.2.1, s.1.2.2, rest)) ∧
    (∀ k < (splitGuards sql.data).1.length, matchGuardAt (sql.data.drop k) = none) := by
  exact ⟨splitBranches_of_segs_ne h, splitGuards_reconstruct sql.data,
    splitGuards_matches sql.data, splitGuards_pre_no_match sql.data⟩

theorem c3_witness :
    splitBranches "x IF @A = '1' y" = ((splitGuards ("x IF @A = '1' y").data).2.map
      (fun s => (String.mk s.1.1 ++ " = '" ++ String.mk s.1.2.1 ++ "'", String.mk s.2))) ∧
    ("x IF @A = '1' y").data = (splitGuards ("x IF @A = '1' y").data).1 ++
      ((splitGuards ("x IF @A = '1' y").data).2.map (fun s => s.1.2.2 ++ s.2)).flatten ∧
    (∀ s ∈ (splitGuards ("x IF @A = '1' y").data).2,
      ∃ rest, matchGuardAt (s.1.2.2 ++ rest) = some (s.1.1, s.1.2.1, s.1.2.2, rest)) ∧
    (∀ k < (splitGuards ("x IF @A = '1' y").data).1.length,
      matchGuardAt (("x IF @A = '1' y").data.drop k) = none) :=
  c3_textual_guard_split "x IF @A = '1' y" (by
    have h1 : findGuard "x IF @A = '1' y".data =
        some ("x ".data, "@A".data, "1".data, "IF @A = '1'".data, " y".data) := by rfl
    rw [splitGuards_eq_some h1]
    simp)

/-- C10: the branch list and all three aggregate lists of the parse
result are functions of the guard matches and inter-match segments alone:
two inputs with at least one guard and the same match list (in
particular, inputs differing only in the text before the first guard)
produce identical branches, `all_tables`, `all_select_columns` and
`all_where_columns` — so tables and columns referenced only in the
pre-guard prefix appear in no branch and in none of the aggregate
lists. -/
theorem c10_prefix_in_no_branch (po : String → Except String Query) (sql1 sql2 : String)
    (h1 : (splitGuards sql1.data).2 ≠ [])
    (h2 : (splitGuards sql2.data).2 = (splitGuards sql1.data).2) :
    (parse po sql1).branches = (parse po sql2).branches ∧
    (parse po sql1).all_tables = (parse po sql2).all_tables ∧
    (parse po sql1).all_select_columns = (parse po sql2).all_select_columns ∧
    (parse po sql1).all_where_columns = (parse po sql2).all_where_columns := by
  have hb : splitBranches sql2 = splitBranches sql1 := by
    rw [splitBranches_of_segs_ne h1, splitBranches_of_segs_ne (h2 ▸ h1), h2]
  unfold parse
  rw [hb]
  have := parseFold_fields_congr po (splitBranches sql1)
    ({ procedure_name := extractProcName sql1, parameters := extractParameters sql1})
    ({ procedure_name := extractProcName sql2, parameters := extractParameters sql2})
    [] rfl rfl rfl rfl
  exact ⟨this.1, this.2.1, this.2.2.1, this.2.2.2.1⟩

theorem c10_witness :
    ((splitGuards ("HEADER one IF @G = '1' SELECT a FROM T").data).2 ≠ []) ∧
    ((splitGuards ("ZIF @G = '1' SELECT a FROM T").data).2 =
      (splitGuards ("HEADER one IF @G = '1' SELECT a FROM T").data).2) ∧
    ((parse (fun _ => .error "") "HEADER one IF @G = '1' SELECT a FROM T").all_tables =
      (parse (fun _ => .error "") "ZIF @G = '1' SELECT a FROM T").all_tables) := by
  have ha1 : findGuard "HEADER one IF @G = '1' SELECT a FROM T".data =
      some ("HEADER one ".data, "@G".data, "1".data, "IF @G = '1'".data,
        " SELECT a FROM T".data) := by rfl
  have hb1 : findGuard "ZIF @G = '1' SELECT a FROM T".data =
      some ("Z".data, "@G".data, "1".data, "IF @G = '1'".data,
        " SELECT a FROM T".data) := by rfl
  have h2 : findGuard " SELECT a FROM T".data = none := by rfl
  have ea : splitGuards "HEADER one IF @G = '1' SELECT a FROM T".data =
      ("HEADER one ".data,
        [(("@G".data, "1".data, "IF @G = '1'".data), " SELECT a FROM T".data)]) := by
    rw [splitGuards_eq_some ha1, splitGuards_eq_none h2]
  have eb : splitGuards "ZIF @G = '1' SELECT a FROM T".data =
      ("Z".data,
        [(("@G".data, "1".data, "IF @G = '1'".data), " SELECT a FROM T".data)]) := by
    rw [splitGuards_eq_some hb1, splitGuards_eq_none h2]
  refine ⟨by rw [ea]; simp, by rw [eb, ea], ?_⟩
  exact (c10_prefix_in_no_branch (fun _ => .error "")
    "HEADER one IF @G = '1' SELECT a FROM T" "ZIF @G = '1' SELECT a FROM T"
    (by rw [ea]; simp) (by rw [eb, ea])).2.1

/-- Membership in the WHERE-column extraction, characterized: an entry
arises exactly from an equality node under a WHERE whose right (else
left) side passes the parameter test with a nonempty rendering, as a leaf
column reference of the other side. -/
theorem mem_extractWhereColumnsFromAst (am : AliasMap) (q : Query) (branch : String)
    (pc : ParsedColumn) :
    pc ∈ extractWhereColumnsFromAst am q branch ↔
      ∃ w ∈ wheresOfQuery q, ∃ lr ∈ eqNodes w,
        ((paramLike lr.2 = true ∧ renderE lr.2 ≠ "" ∧
            pc ∈ extractColumnRefs am lr.1 branch false true (renderE lr.2)) ∨
         (paramLike lr.2 = false ∧ paramLike lr.1 = true ∧ renderE lr.1 ≠ "" ∧
            pc ∈ extractColumnRefs am lr.2 branch false true (renderE lr.1))) := by
  unfold extractWhereColumnsFromAst
  simp only [List.mem_flatten, List.mem_map]
  constructor
  · rintro ⟨l, ⟨w, hw, rfl⟩, hpc⟩
    simp only [List.mem_flatten, List.mem_map] at hpc
    obtain ⟨l2, ⟨lr, hlr, rfl⟩, hpc⟩ := hpc
    refine ⟨w, hw, lr, hlr, ?_⟩
    by_cases h2 : paramLike lr.2 = true
    · simp only [h2, if_true] at hpc
      by_cases hp : renderE lr.2 ≠ ""
      · simp only [if_pos hp] at hpc
        exact Or.inl ⟨h2, hp, hpc⟩
      · simp only [if_neg hp] at hpc
        exact absurd hpc (List.not_mem_nil pc)
    · simp only [Bool.not_eq_true] at h2
      simp only [h2, Bool.false_eq_true, if_false] at hpc
      by_cases h1 : paramLike lr.1 = true
      · simp only [h1, if_true] at hpc
        by_cases hp : renderE lr.1 ≠ ""
        · simp only [if_pos hp] at hpc
          exact Or.inr ⟨h2, h1, hp, hpc⟩
        · simp only [if_neg hp] at hpc
          exact absurd hpc (List.not_mem_nil pc)
      · simp only [Bool.not_eq_true] at h1
        simp only [h1, Bool.false_eq_true, if_false] at hpc
        exact absurd hpc (List.not_mem_nil pc)
  · rintro ⟨w, hw, lr, hlr, hcase⟩
    refine ⟨_, ⟨w, hw, rfl⟩, ?_⟩
    simp only [List.mem_flatten, List.mem_map]
    refine ⟨_, ⟨lr, hlr, rfl⟩, ?_⟩
    rcases hcase with ⟨h2, hp, hm⟩ | ⟨h2, h1, hp, hm⟩
    · simp only [h2, if_true, if_pos hp]
      exact hm
    · simp only [h2, Bool.false_eq_true, if_false, h1, if_true, if_pos hp]
      exact hm

/-- C6 counterexample: the WHERE clause `ISNULL(A.Code, x) = @P` has a
function application, not a column reference, as the equality's
non-parameter side (both sides fail `isColumnExpr`), yet the extraction
still emits an entry for the leaf column `A.Code` — so "one side … a
column reference" does not characterize when entries are emitted. -/
theorem c6_counterexample :
    extractWhereColumnsFromAst [] qC6 "b" =
      [{ table := "A", column := "Code", is_select := false, is_where := true,
         parameter := "@P", branch := "b" }] ∧
    ((wheresOfQuery qC6).map (fun w =>
      (eqNodes w).map (fun lr => (isColumnExpr lr.1, isColumnExpr lr.2)))) =
      [[(false, false)]] := by
  constructor
  · decide
  · decide

/-- C6 (amended): an entry is emitted exactly for each equality node
under a WHERE in which one side passes the parameter test (an
`exp.Parameter` node, or any expression whose rendering starts with `@`)
with a nonempty rendering, the right side checked first; what is emitted
is one entry per leaf column reference of the entire other side (which
need not itself be a column reference — function arguments, operands of
arithmetic, etc. all contribute), tagged with that parameter. In
particular inequality, BETWEEN, IN and LIKE nodes alone never produce an
entry: if no WHERE expression contains an equality node the extraction is
empty. -/
theorem c6_where_eq_param_only (am : AliasMap) (q : Query) (branch : String) :
    (∀ pc, pc ∈ extractWhereColumnsFromAst am q branch ↔
      ∃ w ∈ wheresOfQuery q, ∃ lr ∈ eqNodes w,
        ((paramLike lr.2 = true ∧ renderE lr.2 ≠ "" ∧
            pc ∈ extractColumnRefs am lr.1 branch false true (renderE lr.2)) ∨
         (paramLike lr.2 = false ∧ paramLike lr.1 = true ∧ renderE lr.1 ≠ "" ∧
            pc ∈ extractColumnRefs am lr.2 branch false true (renderE lr.1)))) ∧
    ((∀ w ∈ wheresOfQuery q, eqNodes w = []) →
      extractWhereColumnsFromAst am q branch = []) := by
  refine ⟨fun pc => mem_extractWhereColumnsFromAst am q branch pc, fun h => ?_⟩
  unfold extractWhereColumnsFromAst
  rw [List.flatten_eq_nil_iff]
  intro l hl
  simp only [List.mem_map] at hl
  obtain ⟨w, hw, rfl⟩ := hl
  rw [h w hw]
  rfl

theorem c6_witness :
    extractWhereColumnsFromAst [] qC6b "w" = [] :=
  (c6_where_eq_param_only [] qC6b "w").2 (by
    intro w hw
    have he : wheresOfQuery qC6b = [Expr.cmp .lt (.column "" "A") (.param "@P")] := rfl
    rw [he, List.mem_singleton] at hw
    subst hw
    rfl)

/-- C7 counterexample: with two `T.*` output references on an unmapped
table, the star-expansion loop appends the `(T, "*")` unmapped record
twice **without** the dedup check, so the output-column list carries two
entries with the same `(table_eng, col_eng)` pair. -/
theorem c7_counterexample :
    (processMapping emptyStore c7Analysis).output_columns =
      [create_unmapped_column_info "T" "*", create_unmapped_column_info "T" "*"] ∧
    ¬ (colKeys (processMapping emptyStore c7Analysis).output_columns).Nodup := by
  constructor
  · decide
  · decide

/-- C7 (amended): the input-column list never carries two entries with
the same `(tableEng, colEng)` pair (a repeated reference is dropped
silently), and the same holds of the output-column list whenever no
output reference is a star; star expansion, however, appends the
`(table, "*")` record of an unmapped table without the dedup check, so
repeated unmapped stars do duplicate. -/
theorem c7_dedup_by_key (st : MapperStore) (analysis : AnalysisResult)
    (h : ∀ c ∈ analysis.output_columns, c.column ≠ "*") :
    (colKeys (processMapping st analysis).input_columns).Nodup ∧
    (colKeys (processMapping st analysis).output_columns).Nodup := by
  unfold processMapping
  dsimp only
  constructor
  · exact foldl_preserves (fun acc : List ColumnInfo × List String => (colKeys acc.1).Nodup)
      _ _ ([], []) List.nodup_nil (fun s a _ hp => colKeyStep_keys_nodup _ s a hp)
  · rw [collectPhase_star_nil analysis h]
    exact foldl_preserves (fun acc : List ColumnInfo × List String => (colKeys acc.1).Nodup)
      _ _ _ List.nodup_nil (fun s a _ hp => colKeyStep_keys_nodup _ s a hp)

theorem c7_witness :
    (∀ c ∈ c7AnalysisW.output_columns, c.column ≠ "*") ∧
    ((colKeys (processMapping emptyStore c7AnalysisW).input_columns).Nodup ∧
     (colKeys (processMapping emptyStore c7AnalysisW).output_columns).Nodup) :=
  ⟨by decide, c7_dedup_by_key emptyStore c7AnalysisW (by decide)⟩

/-- C1 (batch lookups modelled from the spec): for every analysis, the
request log of the mapping phase contains exactly one batched column
lookup and exactly one batched table lookup — the column batch carrying
the deduplicated request list, which is duplicate-free and covers exactly
the collected references — and referencing the same input column twice
changes nothing at all about the result (same lists, same log), so a
repeated key costs no extra external lookup and every occurrence receives
the same value. -/
theorem c1_single_batched_lookup (st : MapperStore) :
    (∀ a : AnalysisResult,
      (processMapping st a).log.countP (fun r => isColsBatch r) = 1 ∧
      (processMapping st a).log.countP (fun r => isTblsBatch r) = 1 ∧
      Request.colsBatch (dedupList (collectPhase a).column_requests) ∈
        (processMapping st a).log ∧
      Request.tblsBatch (collectPhase a).table_requests ∈ (processMapping st a).log ∧
      (dedupList (collectPhase a).column_requests).Nodup ∧
      (∀ p, p ∈ dedupList (collectPhase a).column_requests ↔
        p ∈ (collectPhase a).column_requests)) ∧
    (∀ (a a' : AnalysisResult) (l1 l2 : List ColumnMapping) (cm : ColumnMapping),
      a.input_columns = l1 ++ cm :: cm :: l2 →
      a' = { a with input_columns := l1 ++ cm :: l2 } →
      processMapping st a = processMapping st a') := by
  constructor
  · intro a
    have hlog : (processMapping st a).log =
        [Request.colsBatch (dedupList (collectPhase a).column_requests),
         Request.tblsBatch (collectPhase a).table_requests] ++
        ((collectPhase a).star_column_tables.foldl (starStep st) ([], [], [])).2.2 := by
      unfold processMapping
      rfl
    have hstar := starStep_log_requests st (collectPhase a).star_column_tables ([], [], [])
      (by intro r hr; cases hr)
    refine ⟨?_, ?_, ?_, ?_, dedupList_nodup _, fun p => mem_dedupList _ p⟩
    · rw [hlog, List.countP_append]
      have h0 : List.countP (fun r => isColsBatch r)
          (((collectPhase a).star_column_tables.foldl (starStep st) ([], [], [])).2.2) = 0 :=
        List.countP_eq_zero.mpr (fun r hr => by simp [(hstar r hr).1])
      rw [h0]
      rfl
    · rw [hlog, List.countP_append]
      have h0 : List.countP (fun r => isTblsBatch r)
          (((collectPhase a).star_column_tables.foldl (starStep st) ([], [], [])).2.2) = 0 :=
        List.countP_eq_zero.mpr (fun r hr => by simp [(hstar r hr).2])
      rw [h0]
      rfl
    · rw [hlog]
      exact List.mem_append_left _ (by simp)
    · rw [hlog]
      exact List.mem_append_left _ (by simp)
  · intro a a' l1 l2 cm h h'
    subst h'
    unfold processMapping collectPhase
    dsimp only
    rw [h]
    rw [collectInput_fold, collectInput_fold, collectOutput_fold, collectOutput_fold]
    dsimp only
    rw [foldl_adjacent_dup (tblStepOf (aliasToTable a.tables) (derivedTables a.tables)) cm
      (fun s => tblStepOf_idem _ _ s cm) l1 l2 []]
    rw [foldl_adjacent_dup (dsetStepOf (aliasToTable a.tables) (derivedTables a.tables)) cm
      (fun s => dsetStepOf_idem _ _ s cm) l1 l2 []]
    have hreq : dedupList
        ((((l1 ++ cm :: cm :: l2).map (reqOf (aliasToTable a.tables) (derivedTables a.tables))).flatten) ++
          ((a.output_columns.map (outReqOf (aliasToTable a.tables) (derivedTables a.tables))).flatten)) =
        dedupList
        ((((l1 ++ cm :: l2).map (reqOf (aliasToTable a.tables) (derivedTables a.tables))).flatten) ++
          ((a.output_columns.map (outReqOf (aliasToTable a.tables) (derivedTables a.tables))).flatten)) := by
      by_cases hd : isDerivedOf (aliasToTable a.tables) (derivedTables a.tables) cm = true
      · simp [reqOf, hd]
      · have hr : reqOf (aliasToTable a.tables) (derivedTables a.tables) cm =
            [(origOf (aliasToTable a.tables) cm, cm.column)] := by
          simp [reqOf, hd]
        simp only [List.map_append, List.map_cons, List.flatten_append, List.flatten_cons, hr,
          List.append_assoc, List.singleton_append, List.cons_append]
        exact dedupList_adjacent_dup _ _ _
    simp only [List.nil_append]
    rw [hreq]
    simp only [List.map_append, List.map_cons, List.nil_append]
    rw [foldl_adjacent_dup _ (inKeyOf (aliasToTable a.tables) (derivedTables a.tables) cm)
      (fun s => colKeyStep_idem _ s _) (l1.map (inKeyOf (aliasToTable a.tables) (derivedTables a.tables)))
      (l2.map (inKeyOf (aliasToTable a.tables) (derivedTables a.tables))) ([], [])]
theorem c1_witness :
    (processMapping emptyStore c1AnalysisW).log.countP (fun r => isColsBatch r) = 1 ∧
    processMapping emptyStore c1AnalysisW = processMapping emptyStore c1AnalysisB :=
  ⟨((c1_single_batched_lookup emptyStore).1 c1AnalysisW).1,
   (c1_single_batched_lookup emptyStore).2 c1AnalysisW c1AnalysisB [] []
     ⟨"T", "a", "", false⟩ (by decide) (by decide)⟩

/-- C4 counterexample: two table references whose canonical names differ
only in letter case (`Foo` / `FOO`) survive the dedup as **two** entries,
and the serialized table section carries two lines — the dict key is the
exact name, not a case-folded one. -/
theorem c4_counterexample :
    uniqueTables [⟨"Foo", "", false, ""⟩, ⟨"FOO", "", false, ""⟩] =
      [⟨"Foo", "", false, ""⟩, ⟨"FOO", "", false, ""⟩] ∧
    rescanTableCount (toStructuredText
      { all_tables := [⟨"Foo", "", false, ""⟩, ⟨"FOO", "", false, ""⟩] }) = 2 := by
  constructor
  · decide
  · decide

/-- C4 (amended): the serialized table list is deduplicated by **exact**
(case-sensitive) canonical name, keeping the first occurrence in document
order: the kept entries carry pairwise-distinct names, form a subsequence
of the input, cover every referenced name, and each kept entry is the
first entry of the input bearing its name.  Names differing in letter
case are distinct keys (see the counterexample). -/
theorem c4_table_dedup_exact_name (ts : List ParsedTable) :
    ((uniqueTables ts).map (fun t => t.name)).Nodup ∧
    (uniqueTables ts).Sublist ts ∧
    (∀ t ∈ ts, ∃ u ∈ uniqueTables ts, u.name = t.name) ∧
    (∀ u ∈ uniqueTables ts, ∃ l1 l2, ts = l1 ++ u :: l2 ∧ ∀ v ∈ l1, v.name ≠ u.name) := by
  obtain ⟨l', he, hsub, hnd, hcov, hfirst⟩ := uniqueTables_go_spec ts [] (by simp)
  unfold uniqueTables
  rw [he]
  simp only [List.nil_append]
  refine ⟨by simpa using hnd, hsub, ?_, fun u hu => (hfirst u hu).2⟩
  intro t ht
  obtain ⟨u, hu, hun⟩ := hcov t ht
  exact ⟨u, by simpa using hu, hun⟩

/-- C9 counterexample: a parse result holding the same table twice
serializes to a hint whose table section carries a single line, so the
re-scanned table count (1) differs from the number of tables the
ParseResult contains (2). -/
theorem c9_counterexample :
    rescanTableCount (toStructuredText
      { all_tables := [⟨"T", "", false, ""⟩, ⟨"T", "", false, ""⟩] }) = 1 ∧
    ({ all_tables := [⟨"T", "", false, ""⟩, ⟨"T", "", false, ""⟩] } :
      ParseResult).all_tables.length = 2 := by
  constructor
  · decide
  · decide

/-- C9 (amended): for any parse result whose interpolated text fields are
newline-free, re-scanning the serialized hint text recovers exactly the
number of **name-deduplicated** tables (`unique_tables`, first occurrence
per exact name — not the raw `all_tables` count) and exactly the number
of distinct per-branch `(table, column)` select pairs of the originating
ParseResult; the serialization itself is a pure function of the
ParseResult. -/
theorem c9_rescan_roundtrip (r : ParseResult) (h : nlFreeResult r = true) :
    rescanTableCount (toStructuredText r) = (uniqueTables r.all_tables).length ∧
    rescanSelectCount (toStructuredText r) =
      (r.branches.map (fun b => (dedupPairs b.select_columns).length)).sum := by
  unfold nlFreeResult at h
  simp only [Bool.and_eq_true, List.all_eq_true] at h
  obtain ⟨⟨⟨⟨hpn, hpar⟩, htab⟩, hbr⟩, hwh⟩ := h
  exact ⟨rescanTable_eq r hpn hpar htab hbr hwh,
    rescanSelect_eq r hpn hpar htab hbr hwh⟩

theorem c9_witness :
    nlFreeResult c9ResultW = true ∧
    (rescanTableCount (toStructuredText c9ResultW) =
        (uniqueTables c9ResultW.all_tables).length ∧
      rescanSelectCount (toStructuredText c9ResultW) =
        (c9ResultW.branches.map (fun b => (dedupPairs b.select_columns).length)).sum) :=
  ⟨by decide, c9_rescan_roundtrip c9ResultW (by decide)⟩

/-- C2 counterexample: on `SELECT Code FROM T` the grammar strategy
reports the unqualified select column `Code` while the regex fallback,
whose pattern only captures dotted `table.column` pairs, reports no
select column at all; and on `SELECT T.Code FROM dbo.T` the grammar
strategy reports table `T` while the regex fallback captures the word
after FROM — the schema qualifier `dbo` (its `^dbo\.` strip never fires
on a `\w+` capture) — so canonical identities differ in both
components. -/
theorem c2_counterexample :
    ((extractSelectColumnsFromAst []
        (Query.select [.column "" "Code"] [.tbl "" "T" ""] none) "b").map
      (fun c => (c.table, c.column)) = [("", "Code")]) ∧
    extractSelectColumnsRegex [] "SELECT Code FROM T" "b" = [] ∧
    ((extractTablesFromAst []
        (Query.select [.column "T" "Code"] [.tbl "dbo" "T" ""] none) "b").1.map
      (fun t => t.name) = ["T"]) ∧
    ((extractTablesRegex [] "SELECT T.Code FROM dbo.T" "b").1.map
      (fun t => t.name) = ["dbo"]) := by
  refine ⟨by decide, ?_, by decide, ?_⟩
  · have hclause : findSelectClause "SELECT Code FROM T".data = some "Code".data := by
      decide
    have hsp : scanPairs "Code".data = [] := by
      rw [scanPairs_cons_none (by decide), scanPairs_cons_none (by decide), scanPairs_cons_none (by decide), scanPairs_cons_none (by decide), scanPairs_nil]
    unfold extractSelectColumnsRegex
    rw [hclause]
    dsimp only
    rw [hsp]
    rfl
  · have hscan : scanTables "SELECT T.Code FROM dbo.T".data =
        [("dbo".data, [])] := by
      rw [scanTables_cons_none (by decide),
      scanTables_cons_none (by decide),
      scanTables_cons_none (by decide),
      scanTables_cons_none (by decide),
      scanTables_cons_none (by decide),
      scanTables_cons_none (by decide),
      scanTables_cons_none (by decide),
      scanTables_cons_none (by decide),
      scanTables_cons_none (by decide),
      scanTables_cons_none (by decide),
      scanTables_cons_none (by decide),
      scanTables_cons_none (by decide),
      scanTables_cons_none (by decide),
      scanTables_cons_none (by decide),
        scanTables_cons_some (show matchTableAt "FROM dbo.T".data =
          some ("dbo".data, [], ".T".data) from by decide),
        scanTables_cons_none (by decide), scanTables_cons_none (by decide),
        scanTables_nil]
    unfold extractTablesRegex
    rw [hscan]
    rfl

/-- C2 (amended): the strategies' select-column extractions agree exactly
on the dotted references the fallback pattern can see: whenever the regex
strategy's clause search yields a comma-separated list of `table.column`
(or `table.*`) references, both strategies emit identical entry lists —
one entry per reference with the same alias-resolved table and the same
column.  Unqualified select columns, by contrast, are reported only by
the grammar strategy (see the counterexample), and the fallback's table
capture keeps a `dbo` qualifier the grammar strategy never reports. -/
theorem c2_dotted_equivalence (am : AliasMap) (branch sql : String)
    (prs : List (String × String)) (d n a : String)
    (hfind : findSelectClause sql.data = some (renderPairs prs))
    (hw : ∀ p ∈ prs, okWord p.1 = true ∧ (okWord p.2 = true ∨ p.2 = "*")) :
    extractSelectColumnsRegex am sql branch =
      extractSelectColumnsFromAst am (Query.select
        (prs.map (fun p => if p.2 = "*" then Expr.star p.1 else Expr.column p.1 p.2))
        [.tbl d n a] none) branch ∧
    extractSelectColumnsRegex am sql branch =
      prs.map (fun p => { table := amResolve am p.1, column := p.2,
                          is_select := true, branch := branch }) := by
  have hreg : extractSelectColumnsRegex am sql branch =
      prs.map (fun p => { table := amResolve am p.1, column := p.2,
                          is_select := true, branch := branch }) := by
    unfold extractSelectColumnsRegex
    rw [hfind]
    dsimp only
    rw [scanPairs_render prs hw, List.map_map]
    rfl
  exact ⟨hreg.trans (ast_select_flat am prs d n a branch).symm, hreg⟩

theorem c2_witness :
    (findSelectClause ("SELECT a.x, b.y FROM T a").data =
      some (renderPairs [("a", "x"), ("b", "y")])) ∧
    (extractSelectColumnsRegex [] "SELECT a.x, b.y FROM T a" "w" =
      [{ table := "a", column := "x", is_select := true, branch := "w" },
       { table := "b", column := "y", is_select := true, branch := "w" }]) :=
  ⟨by decide,
   (c2_dotted_equivalence [] "w" "SELECT a.x, b.y FROM T a" [("a", "x"), ("b", "y")]
     "" "T" "a" (by decide) (by decide)).2⟩

end SqlMap
